import Mathlib

/-!
Verification of the verdict-agent pipeline against its specification.

The Go sources are shallowly embedded: Go strings are modelled as `List Char`
(one entry per rune / Unicode codepoint), Go pointers as `Option`, Go
`(value, error)` returns as explicit pairs or `Except`, and stateful
repositories as explicit state passing.  Machine integers appear only as
lengths and are modelled by `Nat`.
-/

namespace VerdictAgent

/-- Go strings modelled as sequences of runes (Unicode codepoints). -/
abbrev Str := List Char

/-- `unicode.IsSpace` restricted to the code points exercised here
(`strings.TrimSpace` in Go trims Unicode white space; the relevant
ASCII/Latin-1 white-space set is modelled). -/
def isGoSpace (c : Char) : Bool :=
  c = ' ' ∨ c = '\t' ∨ c = '\n' ∨ c = '\x0b' ∨ c = '\x0c' ∨ c = '\r' ∨
  c = '\x85' ∨ c = '\xa0'

/-- `strings.TrimSpace`: drop leading and trailing white space. -/
def trimSpace (s : Str) : Str :=
  (s.dropWhile isGoSpace).reverse.dropWhile isGoSpace |>.reverse

/-- `utf8.RuneCountInString`: number of runes. -/
def runeCount (s : Str) : Nat := s.length

/-- Number of bytes of one rune in UTF-8 (what Go `len` adds per rune). -/
def utf8CharLen (c : Char) : Nat :=
  if c.toNat < 0x80 then 1
  else if c.toNat < 0x800 then 2
  else if c.toNat < 0x10000 then 3
  else 4

/-- Go `len(s)` on a string: its UTF-8 byte count. -/
def utf8Len (s : Str) : Nat := (s.map utf8CharLen).sum

/-! ## Agent data model (`internal/agent`) -/

/-- `agent.RejectedOption`. -/
structure RejectedOption where
  option : Str
  reason : Str
deriving DecidableEq, Repr

/-- `agent.VerdictOutput`.  `Ranking` is `interface{}` in Go and is carried
opaquely as an optional list of integers (the only shape the code produces). -/
structure VerdictOutput where
  ruling : Str
  rationale : Str
  rejected : Option (List RejectedOption)   -- Go slice: `none` = nil slice
  ranking : Option (List Int)
deriving DecidableEq, Repr

/-- `agent.Phase`. -/
structure Phase where
  name : Str
  tasks : List Str
deriving DecidableEq, Repr

/-- `agent.ExecutionOutput`. -/
structure ExecutionOutput where
  mvpScope : List Str
  phases : List Phase
  doneCriteria : List Str
deriving DecidableEq, Repr

/-- Go `error` values relevant to the embedding, as a sum of the sentinel
errors declared in the sources plus wrapped/free-form errors. -/
inductive GoErr where
  | rateLimited                      -- agent.ErrRateLimited
  | timeoutSentinel                  -- agent.ErrTimeout ("request timeout")
  | invalidJSON (detail : Str)       -- agent.ErrInvalidJSON
  | ctxCanceled                      -- context.Canceled
  | ctxDeadlineExceeded              -- context.DeadlineExceeded
  | requestFailed (cause : GoErr)    -- "request failed: %w"
  | apiError (status : Nat)          -- "API error (status %d): ..."
  | emptyChoices                     -- "no response from ..."
  | maxRetries (last : GoErr)        -- "max retries exceeded: %w"
  | message (text : Str)             -- plain errors.New / fmt.Errorf
  | wrapped (text : Str) (cause : GoErr) -- fmt.Errorf("...: %w", cause)
deriving DecidableEq, Repr

/-- `errors.Is(err, context.DeadlineExceeded)`: walk the wrap chain. -/
def GoErr.isDeadlineExceeded : GoErr → Bool
  | .ctxDeadlineExceeded => true
  | .requestFailed e => e.isDeadlineExceeded
  | .maxRetries e => e.isDeadlineExceeded
  | .wrapped _ e => e.isDeadlineExceeded
  | _ => false

/-! ## Execution agent validation (`internal/agent/execution.go`) -/

/-- The per-phase checks of `ExecutionAgent.validateOutput`'s `for` loop:
the first phase with more than 5 tasks, no tasks, or an empty name yields
the corresponding error. -/
def validatePhases : List Phase → Option GoErr
  | [] => none
  | phase :: rest =>
    if phase.tasks.length > 5 then some (.message "phase has too many tasks".data)
    else if phase.tasks.length = 0 then some (.message "phase has no tasks".data)
    else if phase.name = [] then some (.message "phase has no name".data)
    else validatePhases rest

/-- `ExecutionAgent.validateOutput`: `none` means the plan is accepted,
`some e` is the returned error. -/
def executionValidateOutput (output : ExecutionOutput) : Option GoErr :=
  if output.phases.length > 3 then
    some (.message "too many phases".data)
  else if output.phases.length = 0 then
    some (.message "no phases defined".data)
  else
    match validatePhases output.phases with
    | some e => some e
    | none =>
      if output.mvpScope.length = 0 then
        some (.message "no MVP scope defined".data)
      else if output.doneCriteria.length = 0 then
        some (.message "no done criteria defined".data)
      else
        none

/-- The conjunction of constraints enforced by `validateOutput`, written as
the specification words it: 1–3 phases, each with a non-empty name and 1–5
tasks, non-empty MVP scope, non-empty done criteria. -/
def executionWellFormed (output : ExecutionOutput) : Prop :=
  1 ≤ output.phases.length ∧ output.phases.length ≤ 3 ∧
  (∀ phase ∈ output.phases,
    phase.name ≠ [] ∧ 1 ≤ phase.tasks.length ∧ phase.tasks.length ≤ 5) ∧
  output.mvpScope ≠ [] ∧ output.doneCriteria ≠ []

instance (output : ExecutionOutput) : Decidable (executionWellFormed output) := by
  unfold executionWellFormed
  infer_instance

theorem validatePhases_none_iff (l : List Phase) :
    validatePhases l = none ↔
      ∀ phase ∈ l, phase.name ≠ [] ∧ 1 ≤ phase.tasks.length ∧ phase.tasks.length ≤ 5 := by
  induction l with
  | nil => simp [validatePhases]
  | cons phase rest ih =>
    by_cases h5 : phase.tasks.length > 5
    · simp only [validatePhases, h5, if_true]
      constructor
      · intro h; cases h
      · intro h
        have := (h phase (List.mem_cons_self phase rest)).2.2
        omega
    · by_cases h0 : phase.tasks.length = 0
      · simp only [validatePhases, h5, if_false, h0, if_true]
        constructor
        · intro h; cases h
        · intro h
          have := (h phase (List.mem_cons_self phase rest)).2.1
          omega
      · by_cases hn : phase.name = []
        · simp only [validatePhases, h5, if_false, h0, hn, if_true]
          constructor
          · intro h; cases h
          · intro h
            exact absurd hn (h phase (List.mem_cons_self phase rest)).1
        · simp only [validatePhases, h5, if_false, h0, hn, ih]
          constructor
          · intro h q hq
            rcases List.mem_cons.mp hq with rfl | hq
            · exact ⟨hn, by omega, by omega⟩
            · exact h q hq
          · intro h q hq
            exact h q (List.mem_cons_of_mem _ hq)

theorem executionValidateOutput_none_iff (output : ExecutionOutput) :
    executionValidateOutput output = none ↔ executionWellFormed output := by
  unfold executionValidateOutput executionWellFormed
  by_cases h3 : output.phases.length > 3
  · simp only [h3, if_true]
    constructor
    · intro h; cases h
    · intro h; omega
  · by_cases h0 : output.phases.length = 0
    · simp only [h3, if_false, h0, if_true]
      constructor
      · intro h; cases h
      · intro h; omega
    · simp only [h3, if_false, h0]
      rcases hv : validatePhases output.phases with _ | e
      · have hvp := (validatePhases_none_iff output.phases).mp hv
        by_cases hm : output.mvpScope.length = 0
        · simp only [hm, if_true]
          constructor
          · intro h; cases h
          · rintro ⟨-, -, -, hmvp, -⟩
            exact absurd (List.length_eq_zero.mp hm) hmvp
        · by_cases hd : output.doneCriteria.length = 0
          · simp only [hm, if_false, hd, if_true]
            constructor
            · intro h; cases h
            · rintro ⟨-, -, -, -, hdone⟩
              exact absurd (List.length_eq_zero.mp hd) hdone
          · simp only [hm, if_false, hd]
            constructor
            · intro _
              exact ⟨by omega, by omega, hvp,
                fun hc => hm (by simp [hc]), fun hc => hd (by simp [hc])⟩
            · intro _; trivial
      · constructor
        · intro h; cases h
        · rintro ⟨-, -, hphases, -, -⟩
          have := (validatePhases_none_iff output.phases).mpr hphases
          rw [hv] at this
          cases this

/-! ## Context model

Go `context.Context` carrying a cancellation time and a deadline, against a
model clock advanced only by the explicit sleeps of the retry loop. -/

/-- Model of a request context: the absolute model time (seconds) at which
`cancel()` was invoked, and the absolute deadline, if any. -/
structure Ctx where
  cancelledAt : Option Nat
  deadlineAt : Option Nat
deriving DecidableEq, Repr

/-- Has `cancel()` been called by time `t`? -/
def Ctx.isCancelled (c : Ctx) (t : Nat) : Bool :=
  match c.cancelledAt with
  | some a => a ≤ t
  | none => false

/-- Has the deadline elapsed by time `t`? -/
def Ctx.deadlinePassed (c : Ctx) (t : Nat) : Bool :=
  match c.deadlineAt with
  | some d => d ≤ t
  | none => false

/-- `ctx.Done()` is closed at time `t`. -/
def Ctx.isDone (c : Ctx) (t : Nat) : Bool :=
  c.isCancelled t || c.deadlinePassed t

/-- `ctx.Err()` once done (cancellation cause takes precedence when both
apply, matching a cancel that precedes the deadline in the runs modelled). -/
def Ctx.errVal (c : Ctx) (t : Nat) : GoErr :=
  if c.isCancelled t then .ctxCanceled else .ctxDeadlineExceeded

/-! ## Pipeline (`internal/pipeline/pipeline.go`) -/

/-- The pipeline error values of `internal/pipeline/pipeline.go`.  The
sentinels `ErrVerdictFailed`/`ErrExecutionFailed` are always observed through
`fmt.Errorf("%w: %v", ...)`, carried here with their formatted cause.  Note
the source declares no cancellation error. -/
inductive PipelineErr where
  | inputEmpty                       -- pipeline.ErrInputEmpty
  | inputTooLong                     -- pipeline.ErrInputTooLong
  | verdictFailed (cause : GoErr)    -- pipeline.ErrVerdictFailed wrap
  | executionFailed (cause : GoErr)  -- pipeline.ErrExecutionFailed wrap
  | timeout                          -- pipeline.ErrTimeout
deriving DecidableEq, Repr

/-- `pipeline.PipelineResult` (the wall-clock `Duration` field is not
modelled). -/
structure PipelineResult where
  input : Str
  verdict : Option VerdictOutput
  execution : Option ExecutionOutput
deriving DecidableEq, Repr

/-- A Go `(T*, error)` pair of return values. -/
structure GoRet (ε α : Type) where
  val : Option α
  err : Option ε
deriving DecidableEq, Repr

/-- `Pipeline.validateInput` (the source rebinds `input` to its trimmed
form before both checks). -/
def pipelineValidateInput (input : Str) : Option PipelineErr :=
  if trimSpace input = [] then some .inputEmpty
  else if runeCount (trimSpace input) > 10000 then some .inputTooLong
  else none

/-- `Pipeline.validateVerdictOutput`. -/
def validateVerdictOutput : Option VerdictOutput → Option GoErr
  | none => some (.message "verdict output is nil".data)
  | some output =>
    if trimSpace output.ruling = [] then
      some (.message "verdict ruling is empty".data)
    else if trimSpace output.rationale = [] then
      some (.message "verdict rationale is empty".data)
    else
      none

/-- `Pipeline.validateExecutionOutput` (the orchestrator-level check: non-nil,
at least one phase, and at least one phase holding a task). -/
def pipelineValidateExecutionOutput : Option ExecutionOutput → Option GoErr
  | none => some (.message "execution output is nil".data)
  | some output =>
    if output.phases.length = 0 then
      some (.message "execution must have at least 1 phase with tasks".data)
    else if output.phases.any (fun phase => phase.tasks.length > 0) then
      none
    else
      some (.message "execution must have at least 1 phase with tasks".data)

/-- `Pipeline.Execute`.  The two agents are the `Pipeline` struct's fields,
passed as the functions `vs` (verdict stage) and `es` (execution stage); both
receive the timeout context exactly as in the source. -/
def pipelineExecute
    (vs : Ctx → Str → GoRet GoErr VerdictOutput)
    (es : Ctx → Option VerdictOutput → GoRet GoErr ExecutionOutput)
    (ctx : Ctx) (input : Str) : GoRet PipelineErr PipelineResult :=
  match pipelineValidateInput input with
  | some e => ⟨none, some e⟩
  | none =>
    match (vs ctx input).err with
    | some e =>
      if e.isDeadlineExceeded then ⟨none, some .timeout⟩
      else ⟨none, some (.verdictFailed e)⟩
    | none =>
      match validateVerdictOutput (vs ctx input).val with
      | some e => ⟨none, some (.verdictFailed e)⟩
      | none =>
        match (es ctx (vs ctx input).val).err with
        | some e =>
          if e.isDeadlineExceeded then ⟨none, some .timeout⟩
          else ⟨none, some (.executionFailed e)⟩
        | none =>
          match pipelineValidateExecutionOutput (es ctx (vs ctx input).val).val with
          | some e => ⟨none, some (.executionFailed e)⟩
          | none => ⟨some ⟨input, (vs ctx input).val, (es ctx (vs ctx input).val).val⟩, none⟩

/-- `ExecutionAgent.Process`: nil-verdict guard, LLM call (its parsed result
or error given by `llm`), then `validateOutput`. -/
def executionProcess (verdict : Option VerdictOutput)
    (llm : Except GoErr ExecutionOutput) : GoRet GoErr ExecutionOutput :=
  match verdict with
  | none => ⟨none, some (.message "verdict cannot be nil".data)⟩
  | some _ =>
    match llm with
    | .error e => ⟨none, some (.wrapped "failed to generate execution plan".data e)⟩
    | .ok output =>
      match executionValidateOutput output with
      | some e => ⟨none, some (.wrapped "invalid execution plan".data e)⟩
      | none => ⟨some output, none⟩

theorem validateVerdictOutput_none_iff (ov : Option VerdictOutput) :
    validateVerdictOutput ov = none ↔
      ∃ v, ov = some v ∧ trimSpace v.ruling ≠ [] ∧ trimSpace v.rationale ≠ [] := by
  cases ov with
  | none => simp [validateVerdictOutput]
  | some v =>
    by_cases h1 : trimSpace v.ruling = []
    · simp [validateVerdictOutput, h1]
    · by_cases h2 : trimSpace v.rationale = []
      · simp [validateVerdictOutput, h1, h2]
      · simp [validateVerdictOutput, h1, h2]

theorem pipelineValidateExecutionOutput_none_iff (oe : Option ExecutionOutput) :
    pipelineValidateExecutionOutput oe = none ↔
      ∃ e, oe = some e ∧ e.phases ≠ [] ∧ ∃ ph ∈ e.phases, ph.tasks ≠ [] := by
  cases oe with
  | none => simp [pipelineValidateExecutionOutput]
  | some e =>
    by_cases h0 : e.phases.length = 0
    · have : e.phases = [] := List.length_eq_zero.mp h0
      simp [pipelineValidateExecutionOutput, h0, this]
    · by_cases ha : e.phases.any (fun phase => phase.tasks.length > 0)
      · simp only [pipelineValidateExecutionOutput, h0, if_false, ha, if_true]
        constructor
        · intro _
          rcases List.any_eq_true.mp ha with ⟨ph, hmem, hph⟩
          simp only [decide_eq_true_eq] at hph
          exact ⟨e, rfl, fun hc => h0 (by simp [hc]),
            ⟨ph, hmem, List.ne_nil_of_length_pos hph⟩⟩
        · intro _; trivial
      · simp only [pipelineValidateExecutionOutput, h0, if_false, ha, if_false]
        constructor
        · intro h; cases h
        · rintro ⟨e', he', -, ph, hmem, htasks⟩
          cases Option.some.inj he'
          refine absurd (List.any_eq_true.mpr ⟨ph, hmem, ?_⟩) ha
          simp only [decide_eq_true_eq]
          exact List.length_pos.mpr htasks

theorem validatePhases_some_message (l : List Phase) (e : GoErr)
    (h : validatePhases l = some e) : ∃ t, e = .message t := by
  induction l with
  | nil => cases h
  | cons phase rest ih =>
    unfold validatePhases at h
    by_cases h5 : phase.tasks.length > 5
    · simp only [h5, if_true] at h
      exact ⟨_, (Option.some.inj h).symm⟩
    · by_cases h0 : phase.tasks.length = 0
      · simp only [h5, if_false, h0, if_true] at h
        exact ⟨_, (Option.some.inj h).symm⟩
      · by_cases hn : phase.name = []
        · simp only [h5, if_false, h0, hn, if_true] at h
          exact ⟨_, (Option.some.inj h).symm⟩
        · simp only [h5, if_false, h0, hn, if_false] at h
          exact ih h

theorem executionValidateOutput_some_message (o : ExecutionOutput) (e : GoErr)
    (h : executionValidateOutput o = some e) : ∃ t, e = .message t := by
  unfold executionValidateOutput at h
  by_cases h3 : o.phases.length > 3
  · simp only [h3, if_true] at h
    exact ⟨_, (Option.some.inj h).symm⟩
  · by_cases h0 : o.phases.length = 0
    · simp only [h3, if_false, h0, if_true] at h
      exact ⟨_, (Option.some.inj h).symm⟩
    · simp only [h3, if_false, h0] at h
      rcases hv : validatePhases o.phases with _ | e'
      · rw [hv] at h
        by_cases hm : o.mvpScope.length = 0
        · simp only [hm, if_true] at h
          exact ⟨_, (Option.some.inj h).symm⟩
        · by_cases hd : o.doneCriteria.length = 0
          · simp only [hm, if_false, hd, if_true] at h
            exact ⟨_, (Option.some.inj h).symm⟩
          · simp [hm, hd] at h
      · rw [hv] at h
        simp only at h
        cases Option.some.inj h
        exact validatePhases_some_message o.phases e hv

/-- Every run of `Execute` either fails with some error and a nil result, or
succeeds with the stage outputs it validated. -/
theorem pipelineExecute_shape
    (vs : Ctx → Str → GoRet GoErr VerdictOutput)
    (es : Ctx → Option VerdictOutput → GoRet GoErr ExecutionOutput)
    (ctx : Ctx) (input : Str) :
    (∃ err, pipelineExecute vs es ctx input = ⟨none, some err⟩) ∨
    (pipelineExecute vs es ctx input
        = ⟨some ⟨input, (vs ctx input).val, (es ctx (vs ctx input).val).val⟩, none⟩ ∧
      validateVerdictOutput (vs ctx input).val = none ∧
      pipelineValidateExecutionOutput (es ctx (vs ctx input).val).val = none) := by
  unfold pipelineExecute
  split
  · exact Or.inl ⟨_, rfl⟩
  · split
    · split
      · exact Or.inl ⟨_, rfl⟩
      · exact Or.inl ⟨_, rfl⟩
    · split
      · exact Or.inl ⟨_, rfl⟩
      · split
        · split
          · exact Or.inl ⟨_, rfl⟩
          · exact Or.inl ⟨_, rfl⟩
        · split
          · exact Or.inl ⟨_, rfl⟩
          · exact Or.inr ⟨rfl, by assumption, by assumption⟩

/-- C10: when `Execute` returns without error the result is non-nil, its
`Verdict` and `Execution` are non-nil, the ruling and rationale are non-empty
after trimming, the execution output has a phase and some phase has a task;
and `Execute` never returns both a non-nil result and a non-nil error. -/
theorem pipeline_execute_success_invariants
    (vs : Ctx → Str → GoRet GoErr VerdictOutput)
    (es : Ctx → Option VerdictOutput → GoRet GoErr ExecutionOutput)
    (ctx : Ctx) (input : Str) :
    (∀ res, (pipelineExecute vs es ctx input).val = some res →
      (pipelineExecute vs es ctx input).err = none ∧
      (∃ v, res.verdict = some v ∧
        trimSpace v.ruling ≠ [] ∧ trimSpace v.rationale ≠ []) ∧
      (∃ e, res.execution = some e ∧ e.phases ≠ [] ∧
        ∃ ph ∈ e.phases, ph.tasks ≠ [])) ∧
    (∀ err, (pipelineExecute vs es ctx input).err = some err →
      (pipelineExecute vs es ctx input).val = none) := by
  rcases pipelineExecute_shape vs es ctx input with ⟨err, heq⟩ | ⟨heq, hvv, hev⟩
  · rw [heq]
    exact ⟨(fun res hres => nomatch hres), (fun _ _ => rfl)⟩
  · rw [heq]
    constructor
    · intro res hres
      cases Option.some.inj hres
      refine ⟨rfl, ?_, ?_⟩
      · rcases (validateVerdictOutput_none_iff _).mp hvv with ⟨v, hv, hr, hra⟩
        exact ⟨v, hv, hr, hra⟩
      · rcases (pipelineValidateExecutionOutput_none_iff _).mp hev with ⟨e, he, hp, hph⟩
        exact ⟨e, he, hp, hph⟩
    · intro err herr
      exact nomatch herr

/-- Concrete verdict output used by witnesses. -/
def witnessVerdict : VerdictOutput :=
  ⟨"Use Go".data, "simpler concurrency".data, some [], none⟩

/-- Concrete well-formed execution output used by witnesses. -/
def witnessExecution : ExecutionOutput :=
  ⟨["routes".data], [⟨"Setup".data, ["init repo".data]⟩], ["health check passes".data]⟩

/-- Witness for `pipeline_execute_success_invariants`: a successful run with
concrete stages satisfies all stated invariants. -/
theorem pipeline_execute_success_invariants_witness :
    ∀ res, (pipelineExecute (fun _ _ => ⟨some witnessVerdict, none⟩)
        (fun _ _ => ⟨some witnessExecution, none⟩) ⟨none, none⟩ "go or python?".data).val
        = some res →
      (pipelineExecute (fun _ _ => ⟨some witnessVerdict, none⟩)
        (fun _ _ => ⟨some witnessExecution, none⟩) ⟨none, none⟩ "go or python?".data).err
        = none ∧
      (∃ v, res.verdict = some v ∧
        trimSpace v.ruling ≠ [] ∧ trimSpace v.rationale ≠ []) ∧
      (∃ e, res.execution = some e ∧ e.phases ≠ [] ∧
        ∃ ph ∈ e.phases, ph.tasks ≠ []) :=
  (pipeline_execute_success_invariants
    (fun _ _ => ⟨some witnessVerdict, none⟩)
    (fun _ _ => ⟨some witnessExecution, none⟩) ⟨none, none⟩ "go or python?".data).1

/-- C2: with a valid input and verdict, the pipeline's execution stage (the
agent call followed by both validation layers) fails with an
*execution-failed* error exactly unless the parsed output has 1–3 phases,
each with a non-empty name and 1–5 tasks, a non-empty MVP scope and
non-empty done criteria. -/
theorem execution_stage_validation
    (input : Str) (hin : pipelineValidateInput input = none)
    (v : VerdictOutput) (hv : validateVerdictOutput (some v) = none)
    (ctx : Ctx) (o : ExecutionOutput) :
    (¬ executionWellFormed o →
      ∃ c, pipelineExecute (fun _ _ => ⟨some v, none⟩)
          (fun _ vd => executionProcess vd (.ok o)) ctx input
        = ⟨none, some (.executionFailed c)⟩) ∧
    (executionWellFormed o →
      pipelineExecute (fun _ _ => ⟨some v, none⟩)
          (fun _ vd => executionProcess vd (.ok o)) ctx input
        = ⟨some ⟨input, some v, some o⟩, none⟩) := by
  constructor
  · intro hbad
    rcases hval : executionValidateOutput o with _ | e
    · exact absurd ((executionValidateOutput_none_iff o).mp hval) hbad
    · refine ⟨.wrapped "invalid execution plan".data e, ?_⟩
      rcases executionValidateOutput_some_message o e hval with ⟨t, rfl⟩
      unfold pipelineExecute
      rw [hin]
      simp [executionProcess, hval, hv, GoErr.isDeadlineExceeded]
  · intro hgood
    have hval : executionValidateOutput o = none :=
      (executionValidateOutput_none_iff o).mpr hgood
    have hweak : pipelineValidateExecutionOutput (some o) = none := by
      rcases hgood with ⟨h1, -, hphases, -, -⟩
      apply (pipelineValidateExecutionOutput_none_iff (some o)).mpr
      rcases hex : o.phases with _ | ⟨ph, rest⟩
      · rw [hex] at h1; cases h1
      · refine ⟨o, rfl, by rw [hex]; exact List.cons_ne_nil ph rest, ph, ?_, ?_⟩
        · rw [hex]; exact List.mem_cons_self ph rest
        · have := (hphases ph (by rw [hex]; exact List.mem_cons_self ph rest)).2.1
          exact List.ne_nil_of_length_pos this
    unfold pipelineExecute
    rw [hin]
    simp [executionProcess, hval, hv, hweak]

/-- Witness for `execution_stage_validation`: a 4-phase output is rejected
with *execution-failed*. -/
theorem execution_stage_validation_witness :
    ∃ c, pipelineExecute (fun _ _ => ⟨some witnessVerdict, none⟩)
        (fun _ vd => executionProcess vd
          (.ok ⟨["s".data],
            [⟨"a".data, ["t".data]⟩, ⟨"b".data, ["t".data]⟩,
             ⟨"c".data, ["t".data]⟩, ⟨"d".data, ["t".data]⟩],
            ["done".data]⟩)) ⟨none, none⟩ "go or python?".data
      = ⟨none, some (.executionFailed c)⟩ :=
  (execution_stage_validation "go or python?".data (by decide)
    witnessVerdict (by decide) ⟨none, none⟩ _).1 (by decide)

/-! ## HTTP surface (`internal/api/handlers.go`) -/

/-- The error codes declared in `handlers.go`. -/
inductive ApiErrCode where
  | inputEmptyCode       -- "INPUT_EMPTY"
  | inputTooLongCode     -- "INPUT_TOO_LONG"
  | verdictFailedCode    -- "VERDICT_FAILED"
  | notFoundCode         -- "NOT_FOUND"
  | rateLimitedCode      -- "RATE_LIMITED"
  | invalidIdCode        -- "INVALID_ID"
  | internalErrorCode    -- "INTERNAL_ERROR"
deriving DecidableEq, Repr

/-- Outcome of the input-validation prefix of `Handlers.VerdictHandler`. -/
inductive HandlerStep where
  | errorResp (status : Nat) (code : ApiErrCode)
  | proceed (input : Str)
deriving DecidableEq, Repr

/-- The validation prefix of `Handlers.VerdictHandler`: trim, reject empty,
reject `len(input) > 10000`.  Go `len` on a string counts UTF-8 bytes, not
runes. -/
def verdictHandlerValidate (raw : Str) : HandlerStep :=
  if trimSpace raw = [] then .errorResp 400 .inputEmptyCode
  else if utf8Len (trimSpace raw) > 10000 then .errorResp 400 .inputTooLongCode
  else .proceed (trimSpace raw)

/-- The `switch` mapping `pipeline.Execute` errors to HTTP status and code
in `VerdictHandler`. -/
def mapPipelineErr : PipelineErr → Nat × ApiErrCode
  | .inputEmpty => (400, .inputEmptyCode)
  | .inputTooLong => (400, .inputTooLongCode)
  | .timeout => (504, .verdictFailedCode)
  | .verdictFailed _ => (500, .verdictFailedCode)
  | .executionFailed _ => (500, .verdictFailedCode)

theorem dropWhile_eq_self_of_all (p : Char → Bool) (l : Str)
    (h : ∀ c ∈ l, p c = false) : l.dropWhile p = l := by
  cases l with
  | nil => rfl
  | cons a t =>
    rw [List.dropWhile_cons]
    simp [h a (List.mem_cons_self a t)]

theorem trimSpace_of_no_space (s : Str) (h : ∀ c ∈ s, isGoSpace c = false) :
    trimSpace s = s := by
  unfold trimSpace
  rw [dropWhile_eq_self_of_all _ _ h,
    dropWhile_eq_self_of_all _ _ (fun c hc => h c (List.mem_reverse.mp hc)),
    List.reverse_reverse]

theorem trimSpace_replicate (n : Nat) (c : Char) (h : isGoSpace c = false) :
    trimSpace (List.replicate n c) = List.replicate n c :=
  trimSpace_of_no_space _ (fun _ hx => (List.eq_of_mem_replicate hx) ▸ h)

theorem utf8Len_replicate (n : Nat) (c : Char) :
    utf8Len (List.replicate n c) = n * utf8CharLen c := by
  unfold utf8Len
  rw [List.map_replicate, List.sum_replicate, smul_eq_mul]

/-- C4 amended: the pipeline layer counts Unicode codepoints (more than
10,000 in the trimmed input is rejected with *input-too-long* independently
of the agents, i.e. before any LLM call; at most 10,000 passes), while the
HTTP surface counts UTF-8 bytes of the trimmed input; both rejections carry
400 INPUT_TOO_LONG. -/
theorem input_length_validation (raw : Str) :
    (pipelineValidateInput raw = some .inputTooLong ↔
      trimSpace raw ≠ [] ∧ runeCount (trimSpace raw) > 10000) ∧
    (trimSpace raw ≠ [] → runeCount (trimSpace raw) > 10000 →
      ∀ vs es ctx, pipelineExecute vs es ctx raw = ⟨none, some .inputTooLong⟩) ∧
    (trimSpace raw ≠ [] → runeCount (trimSpace raw) ≤ 10000 →
      pipelineValidateInput raw = none) ∧
    (verdictHandlerValidate raw = .errorResp 400 .inputTooLongCode ↔
      trimSpace raw ≠ [] ∧ utf8Len (trimSpace raw) > 10000) ∧
    mapPipelineErr .inputTooLong = (400, .inputTooLongCode) := by
  refine ⟨?_, ?_, ?_, ?_, rfl⟩
  · unfold pipelineValidateInput
    by_cases he : trimSpace raw = []
    · simp [he]
    · by_cases hl : runeCount (trimSpace raw) > 10000
      · simp [he, hl]
      · simp [he, hl]
  · intro he hl vs es ctx
    have hv : pipelineValidateInput raw = some .inputTooLong := by
      unfold pipelineValidateInput
      simp [he, hl]
    unfold pipelineExecute
    rw [hv]
  · intro he hl
    unfold pipelineValidateInput
    have : ¬ runeCount (trimSpace raw) > 10000 := by omega
    simp [he, this]
  · unfold verdictHandlerValidate
    by_cases he : trimSpace raw = []
    · simp [he]
    · by_cases hl : utf8Len (trimSpace raw) > 10000
      · simp [he, hl]
      · simp [he, hl]

/-- Witness for `input_length_validation`: 10,001 `a`s are rejected by the
pipeline with *input-too-long* regardless of the agents. -/
theorem input_length_validation_witness :
    pipelineExecute (fun _ _ => ⟨some witnessVerdict, none⟩)
        (fun _ _ => ⟨some witnessExecution, none⟩) ⟨none, none⟩
        (List.replicate 10001 'a')
      = ⟨none, some .inputTooLong⟩ := by
  have htrim : trimSpace (List.replicate 10001 'a') = List.replicate 10001 'a' :=
    trimSpace_replicate 10001 'a' (by decide)
  exact (input_length_validation (List.replicate 10001 'a')).2.1
    (by
      rw [htrim]
      exact List.ne_nil_of_length_pos (by rw [List.length_replicate]; omega))
    (by
      rw [htrim]
      unfold runeCount
      rw [List.length_replicate]
      omega)
    _ _ _

/-- C4 counterexample: a trimmed input of exactly 10,000 codepoints (each a
3-byte CJK rune) passes the pipeline length check but is rejected as too
long by the HTTP surface, which counts bytes. -/
theorem input_length_http_counterexample :
    runeCount (trimSpace (List.replicate 10000 '中')) = 10000 ∧
    pipelineValidateInput (List.replicate 10000 '中') = none ∧
    verdictHandlerValidate (List.replicate 10000 '中')
      = .errorResp 400 .inputTooLongCode := by
  have htrim : trimSpace (List.replicate 10000 '中') = List.replicate 10000 '中' :=
    trimSpace_replicate 10000 '中' (by decide)
  have hne : List.replicate 10000 '中' ≠ ([] : Str) :=
    List.ne_nil_of_length_pos (by rw [List.length_replicate]; omega)
  have hcount : runeCount (List.replicate 10000 '中') = 10000 := by
    unfold runeCount
    rw [List.length_replicate]
  have hbytes : utf8Len (List.replicate 10000 '中') = 30000 := by
    have h3 : utf8CharLen '中' = 3 := by decide
    rw [utf8Len_replicate, h3]
  refine ⟨?_, ?_, ?_⟩
  · rw [htrim, hcount]
  · unfold pipelineValidateInput
    rw [htrim, if_neg hne, hcount]
    norm_num
  · unfold verdictHandlerValidate
    rw [htrim, if_neg hne, hbytes]
    norm_num

/-! ## Clarification stage (`internal/agent/clarification.go`) -/

/-- `agent.Question`. -/
structure Question where
  id : Str
  question : Str
  qtype : Str
  options : Option (List Str)    -- Go slice: `none` = nil
  required : Bool
deriving DecidableEq, Repr

/-- `fmt.Sprintf("q%d", i+1)` for 0-based index `i`. -/
def qId (i : Nat) : Str := 'q' :: Nat.toDigits 10 (i + 1)

/-- The body of the `for i := range result.Questions` loop of
`ClarificationAgent.Analyze`, applied at index `i`. -/
def assignQuestionDefaults (i : Nat) (q : Question) : Question :=
  { q with
    id := if q.id = [] then qId i else q.id,
    qtype := if q.qtype = [] then "text".data else q.qtype }

/-- The post-processing loop of `ClarificationAgent.Analyze` starting at
index `i`: assign ids `q1..qN` by position and default missing types to
`text`.  The source drops no question. -/
def clarificationLoop : Nat → List Question → List Question
  | _, [] => []
  | i, q :: rest => assignQuestionDefaults i q :: clarificationLoop (i + 1) rest

/-- The whole post-processing of `ClarificationAgent.Analyze`. -/
def clarificationPostProcess (qs : List Question) : List Question :=
  clarificationLoop 0 qs

/-- The claim's post-processing policy: additionally drop every question
whose type is not `text` and whose options list is empty or absent. -/
def clarificationPostProcessSpec (qs : List Question) : List Question :=
  (clarificationPostProcess qs).filter
    (fun q => q.qtype = "text".data ∨ q.options.getD [] ≠ [])

theorem clarificationLoop_length (k : Nat) (qs : List Question) :
    (clarificationLoop k qs).length = qs.length := by
  induction qs generalizing k with
  | nil => rfl
  | cons q rest ih => simp [clarificationLoop, ih]

theorem clarificationLoop_get (k : Nat) (qs : List Question) (i : Nat)
    (h : i < qs.length) :
    (clarificationLoop k qs).get ⟨i, (clarificationLoop_length k qs).symm ▸ h⟩ =
      assignQuestionDefaults (k + i) (qs.get ⟨i, h⟩) := by
  induction qs generalizing k i with
  | nil => cases h
  | cons q rest ih =>
    cases i with
    | zero => simp [clarificationLoop]
    | succ i =>
      have hi : i < rest.length := Nat.lt_of_succ_lt_succ h
      have := ih (k + 1) i hi
      simpa [clarificationLoop, Nat.add_assoc, Nat.add_comm 1 i] using this

/-- C8 amended: the clarification post-processing assigns `q1..qN` by
position to questions lacking an id and defaults missing types to `text`;
it preserves every other field and drops nothing (option-less non-text
questions are retained). -/
theorem clarification_postprocess_characterization (qs : List Question) :
    (clarificationPostProcess qs).length = qs.length ∧
    ∀ i (h : i < qs.length),
      (clarificationPostProcess qs).get
          ⟨i, (clarificationLoop_length 0 qs).symm ▸ h⟩ =
        assignQuestionDefaults i (qs.get ⟨i, h⟩) := by
  refine ⟨clarificationLoop_length 0 qs, ?_⟩
  intro i h
  have := clarificationLoop_get 0 qs i h
  simpa using this

/-- Witness for `clarification_postprocess_characterization` at a concrete
list: an id-less `choice` question without options gets id `q1`, keeps its
type, and is not dropped. -/
theorem clarification_postprocess_characterization_witness :
    (clarificationPostProcess [⟨[], "pick one".data, "choice".data, none, true⟩]).get
        ⟨0, (clarificationLoop_length 0 _).symm ▸ Nat.zero_lt_one⟩ =
      assignQuestionDefaults 0 ⟨[], "pick one".data, "choice".data, none, true⟩ :=
  (clarification_postprocess_characterization
    [⟨[], "pick one".data, "choice".data, none, true⟩]).2 0 Nat.zero_lt_one

/-- C8 counterexample: the code keeps an option-less `choice` question
(assigning it id `q1`), while the claimed policy drops it. -/
theorem clarification_drop_counterexample :
    clarificationPostProcess [⟨[], "pick one".data, "choice".data, none, true⟩]
      = [⟨"q1".data, "pick one".data, "choice".data, none, true⟩] ∧
    clarificationPostProcessSpec [⟨[], "pick one".data, "choice".data, none, true⟩]
      = [] := by
  constructor <;> rfl

/-! ## LLM gateway construction (`NewLLMClient`, verdict.go) -/

/-- `agent.Config` for LLM clients (`Timeout` in model seconds). -/
structure LLMConfig where
  provider : Str
  apiKey : Str
  model : Str
  maxRetries : Nat
  timeout : Nat
deriving DecidableEq, Repr

/-- Which concrete client `NewLLMClient` constructed. -/
inductive LLMClientKind where
  | openaiKind
  | anthropicKind
deriving DecidableEq, Repr

/-- The value `NewLLMClient` returns: the client type with its effective
configuration. -/
structure LLMClientModel where
  kind : LLMClientKind
  config : LLMConfig
deriving DecidableEq, Repr

/-- The `MaxRetries`/`Timeout` defaulting at the top of `NewLLMClient`
(3 retries, 5 minutes). -/
def applyClientDefaults (cfg : LLMConfig) : LLMConfig :=
  { cfg with
    maxRetries := if cfg.maxRetries = 0 then 3 else cfg.maxRetries,
    timeout := if cfg.timeout = 0 then 300 else cfg.timeout }

/-- The default-model switch of `NewLLMClient`: an empty model gets the
provider default; an unknown provider is an error. -/
def applyModelDefault (cfg : LLMConfig) : Except GoErr LLMConfig :=
  if cfg.model = [] then
    if cfg.provider = "openai".data then
      .ok { cfg with model := "gpt-4".data }
    else if cfg.provider = "anthropic".data then
      .ok { cfg with model := "claude-3-opus-20240229".data }
    else
      .error (.message "unsupported provider".data)
  else
    .ok cfg

/-- `NewLLMClient`. -/
def newLLMClient (cfg : LLMConfig) : Except GoErr LLMClientModel :=
  match applyModelDefault (applyClientDefaults cfg) with
  | .error e => .error e
  | .ok cfg =>
    if cfg.provider = "openai".data then .ok ⟨.openaiKind, cfg⟩
    else if cfg.provider = "anthropic".data then .ok ⟨.anthropicKind, cfg⟩
    else .error (.message "unsupported provider".data)

/-- The provider validation of `config.Load` (`config.go`). -/
def configProviderValid (provider : Str) : Bool :=
  provider = "openai".data ∨ provider = "anthropic".data

theorem applyModelDefault_provider (cfg cfg' : LLMConfig)
    (h : applyModelDefault cfg = .ok cfg') : cfg'.provider = cfg.provider := by
  unfold applyModelDefault at h
  by_cases hm : cfg.model = []
  · by_cases ho : cfg.provider = "openai".data
    · rw [if_pos hm, if_pos ho] at h
      cases h
      rfl
    · by_cases ha : cfg.provider = "anthropic".data
      · rw [if_pos hm, if_neg ho, if_pos ha] at h
        cases h
        rfl
      · rw [if_pos hm, if_neg ho, if_neg ha] at h
        cases h
  · rw [if_neg hm] at h
    cases h
    rfl

/-- C9 amended: the gateway recognizes exactly the providers `openai` and
`anthropic`; with no model specified each gets its default model (`gpt-4`,
`claude-3-opus-20240229`); any other provider is rejected both by
`NewLLMClient` and by `config.Load`'s validation. -/
theorem llm_provider_recognition (cfg : LLMConfig) :
    (cfg.provider = "openai".data → cfg.model = [] →
      newLLMClient cfg = .ok ⟨.openaiKind,
        { applyClientDefaults cfg with model := "gpt-4".data }⟩) ∧
    (cfg.provider = "anthropic".data → cfg.model = [] →
      newLLMClient cfg = .ok ⟨.anthropicKind,
        { applyClientDefaults cfg with model := "claude-3-opus-20240229".data }⟩) ∧
    (cfg.provider ≠ "openai".data → cfg.provider ≠ "anthropic".data →
      newLLMClient cfg = .error (.message "unsupported provider".data) ∧
      configProviderValid cfg.provider = false) := by
  have hprov : (applyClientDefaults cfg).provider = cfg.provider := rfl
  have hmodel : (applyClientDefaults cfg).model = cfg.model := rfl
  refine ⟨?_, ?_, ?_⟩
  · intro ho hm
    unfold newLLMClient applyModelDefault
    simp [hprov, hmodel, ho, hm]
  · intro ha hm
    have ho : cfg.provider ≠ "openai".data := by
      rw [ha]; decide
    unfold newLLMClient applyModelDefault
    simp [hprov, hmodel, ho, ha, hm]
  · intro ho ha
    constructor
    · unfold newLLMClient applyModelDefault
      by_cases hm : cfg.model = []
      · simp [hprov, hmodel, ho, ha, hm]
      · simp [hprov, hmodel, ho, ha, hm]
    · unfold configProviderValid
      simp [ho, ha]

/-- Witness for `llm_provider_recognition`: the `openai` provider with no
model gets `gpt-4`. -/
theorem llm_provider_recognition_witness :
    newLLMClient ⟨"openai".data, "key".data, [], 0, 0⟩
      = .ok ⟨.openaiKind,
        { applyClientDefaults ⟨"openai".data, "key".data, [], 0, 0⟩ with
          model := "gpt-4".data }⟩ :=
  (llm_provider_recognition ⟨"openai".data, "key".data, [], 0, 0⟩).1 rfl rfl

/-- C9 counterexample: `gemini` is rejected by `NewLLMClient` (even with no
model requested) and by `config.Load`'s provider validation. -/
theorem gemini_unsupported_counterexample :
    newLLMClient ⟨"gemini".data, "key".data, [], 0, 0⟩
      = .error (.message "unsupported provider".data) ∧
    configProviderValid "gemini".data = false := by
  constructor <;> rfl

/-! ## Artifact generator (`internal/artifact`) -/

/-- `uuid.UUID` modelled as an opaque value with its string rendering;
`uuid.New()` is an effect, so fresh identifiers enter `Generate` as a
parameter. -/
structure Uuid where
  val : Nat
deriving DecidableEq, Repr

/-- `UUID.String()`, abstractly: distinct values render distinctly. -/
def Uuid.render (u : Uuid) : Str := Nat.toDigits 10 u.val

/-- `time.Time` restricted to its UTC calendar reading, which is all that
`t.UTC().Format(time.RFC3339)` consumes; `time.Now()` is an effect passed in
as a parameter. -/
structure GoTime where
  year : Nat
  month : Nat
  day : Nat
  hour : Nat
  minute : Nat
  second : Nat
deriving DecidableEq, Repr

/-- Two-digit zero padding used by the RFC-3339 layout. -/
def pad2 (n : Nat) : Str :=
  if n < 10 then '0' :: Nat.toDigits 10 n else Nat.toDigits 10 n

/-- `createdAt.UTC().Format(time.RFC3339)`: the date and clock reading with
the `Z` suffix Go prints for the UTC location. -/
def formatRFC3339UTC (t : GoTime) : Str :=
  Nat.toDigits 10 t.year ++ ('-' :: pad2 t.month) ++ ('-' :: pad2 t.day) ++
  ('T' :: pad2 t.hour) ++ (':' :: pad2 t.minute) ++ (':' :: pad2 t.second) ++ ['Z']

/-- `artifact.DecisionVerdict`: `Rejected` is a Go slice (`none` would
marshal to JSON `null`), `Ranking` has `omitempty`. -/
structure DecisionVerdict where
  ruling : Str
  rationale : Str
  rejected : Option (List RejectedOption)
  ranking : Option (List Int)
deriving DecidableEq, Repr

/-- `artifact.Decision`, the decision document. -/
structure DecisionDoc where
  id : Str
  createdAt : Str
  input : Str
  verdict : DecisionVerdict
  isFinal : Bool
deriving DecidableEq, Repr

/-- `convertRejectedOptions`: a nil or empty slice becomes the empty
(non-nil) slice; otherwise the entries are copied unchanged. -/
def convertRejectedOptions : Option (List RejectedOption) → Option (List RejectedOption)
  | none => some []
  | some l => if l.length = 0 then some [] else some l

/-- `generateDecisionJSON`, structured part: the `Decision` value built from
the inputs. -/
def generateDecisionDoc (input : Str) (verdict : VerdictOutput)
    (id : Uuid) (createdAt : GoTime) : DecisionDoc :=
  { id := id.render,
    createdAt := formatRFC3339UTC createdAt,
    input := input,
    verdict :=
      { ruling := verdict.ruling,
        rationale := verdict.rationale,
        rejected := convertRejectedOptions verdict.rejected,
        ranking := verdict.ranking },
    isFinal := true }

/-- JSON string escaping for the characters `encoding/json` escapes in the
strings exercised here. -/
def jsonEscapeChar (c : Char) : Str :=
  if c = '"' then ['\\', '"']
  else if c = '\\' then ['\\', '\\']
  else if c = '\n' then ['\\', 'n']
  else if c = '\t' then ['\\', 't']
  else if c = '\r' then ['\\', 'r']
  else [c]

/-- A JSON string literal. -/
def jsonQuote (s : Str) : Str := '"' :: ((s.map jsonEscapeChar).join ++ ['"'])

/-- Newline plus `depth` copies of the two-space indent unit passed to
`json.MarshalIndent(decision, "", "  ")`. -/
def jsonSep (depth : Nat) : Str :=
  '\n' :: (List.replicate depth "  ".data).join

/-- A `"key": "value"` line at the given depth. -/
def renderStrField (depth : Nat) (key value : Str) : Str :=
  jsonSep depth ++ jsonQuote key ++ (':' :: ' ' :: jsonQuote value)

/-- One rejected-option object in the `rejected` array (depth 3). -/
def renderRejectedItem (r : RejectedOption) : Str :=
  jsonSep 3 ++ ['\x7b'] ++
  renderStrField 4 "option".data r.option ++ [','] ++
  renderStrField 4 "reason".data r.reason ++
  jsonSep 3 ++ ['\x7d']

/-- The `rejected` field value: `null` for a nil slice, `[]` for an empty
one, else an indented array. -/
def renderRejected : Option (List RejectedOption) → Str
  | none => "null".data
  | some [] => "[]".data
  | some l => '[' :: (List.intercalate [','] (l.map renderRejectedItem)) ++
      jsonSep 2 ++ [']']

/-- The optional `ranking` array (depth 3 items). -/
def renderIntArray : List Int → Str
  | [] => "[]".data
  | l => '[' :: (List.intercalate [','] (l.map (fun n =>
      jsonSep 3 ++ (if n < 0 then '-' :: Nat.toDigits 10 n.natAbs
                    else Nat.toDigits 10 n.natAbs)))) ++ jsonSep 2 ++ [']']

/-- The nested `verdict` object (depth-2 fields, `ranking` omitted when
nil because of `omitempty`). -/
def renderVerdictObj (v : DecisionVerdict) : Str :=
  ['\x7b'] ++
  renderStrField 2 "ruling".data v.ruling ++ [','] ++
  renderStrField 2 "rationale".data v.rationale ++ [','] ++
  jsonSep 2 ++ jsonQuote "rejected".data ++ (':' :: ' ' :: renderRejected v.rejected) ++
  (match v.ranking with
   | none => []
   | some l => ',' :: jsonSep 2 ++ jsonQuote "ranking".data ++
       (':' :: ' ' :: renderIntArray l)) ++
  jsonSep 1 ++ ['\x7d']

/-- `json.MarshalIndent(decision, "", "  ")` applied to the decision
document: the exact two-space-indented layout `encoding/json` produces for
this struct. -/
def renderDecisionJSON (d : DecisionDoc) : Str :=
  ['\x7b'] ++
  renderStrField 1 "id".data d.id ++ [','] ++
  renderStrField 1 "created_at".data d.createdAt ++ [','] ++
  renderStrField 1 "input".data d.input ++ [','] ++
  jsonSep 1 ++ jsonQuote "verdict".data ++ (':' :: ' ' :: renderVerdictObj d.verdict) ++ [','] ++
  jsonSep 1 ++ jsonQuote "is_final".data ++
    (':' :: ' ' :: (if d.isFinal then "true".data else "false".data)) ++
  ['\n', '\x7d']

/-- `artifact.phaseData`. -/
structure PhaseData where
  number : Nat
  name : Str
  tasks : List Str
deriving DecidableEq, Repr

/-- `artifact.todoData`. -/
structure TodoData where
  ruling : Str
  timestamp : Str
  id : Str
  mvpScope : List Str
  phases : List PhaseData
  doneCriteria : List Str
deriving DecidableEq, Repr

/-- The numbering loop of `generateTodoMD`: phase `i` gets `Number = i+1`. -/
def numberPhases : Nat → List Phase → List PhaseData
  | _, [] => []
  | i, p :: rest => ⟨i + 1, p.name, p.tasks⟩ :: numberPhases (i + 1) rest

/-- `generateTodoMD`, structured part: the data handed to the template. -/
def generateTodoData (verdict : VerdictOutput) (execution : ExecutionOutput)
    (id : Uuid) (createdAt : GoTime) : TodoData :=
  { ruling := verdict.ruling,
    timestamp := formatRFC3339UTC createdAt,
    id := id.render,
    mvpScope := execution.mvpScope,
    phases := numberPhases 0 execution.phases,
    doneCriteria := execution.doneCriteria }

/-- `artifact.Artifacts` (keeping the structured values the two renderings
are generated from). -/
structure Artifacts where
  decisionJSON : Str
  decisionDoc : DecisionDoc
  todoData : TodoData
  id : Uuid
  createdAt : GoTime
deriving DecidableEq, Repr

/-- `Generator.Generate`: nil guards, then one identifier and one creation
time (the parameters standing for the single `uuid.New()` / `time.Now()`
calls) shared by both artifacts. -/
def generatorGenerate (result : Option PipelineResult) (id : Uuid)
    (createdAt : GoTime) : Except GoErr Artifacts :=
  match result with
  | none => .error (.message "pipeline result cannot be nil".data)
  | some result =>
    match result.verdict with
    | none => .error (.message "verdict output cannot be nil".data)
    | some verdict =>
      match result.execution with
      | none => .error (.message "execution output cannot be nil".data)
      | some execution =>
        .ok { decisionJSON :=
                renderDecisionJSON (generateDecisionDoc result.input verdict id createdAt),
              decisionDoc := generateDecisionDoc result.input verdict id createdAt,
              todoData := generateTodoData verdict execution id createdAt,
              id := id,
              createdAt := createdAt }

/-- C7: successful generation assigns the one identifier and creation time
shared by both artifacts; the decision document carries `id`, `created_at`
formatted RFC-3339 UTC ending in `Z`, the original input, a `rejected` list
that is never nil (hence never `null`, and empty when there are no
rejections), `is_final = true`, and is serialized by the two-space-indented
rendering. -/
theorem artifact_generation (result : PipelineResult) (v : VerdictOutput)
    (e : ExecutionOutput) (id : Uuid) (t : GoTime)
    (hv : result.verdict = some v) (he : result.execution = some e) :
    ∃ a, generatorGenerate (some result) id t = .ok a ∧
      a.id = id ∧ a.createdAt = t ∧
      a.decisionDoc.id = id.render ∧ a.todoData.id = id.render ∧
      a.decisionDoc.createdAt = formatRFC3339UTC t ∧
      a.todoData.timestamp = formatRFC3339UTC t ∧
      (∃ p, formatRFC3339UTC t = p ++ ['Z']) ∧
      a.decisionDoc.input = result.input ∧
      (∃ l, a.decisionDoc.verdict.rejected = some l ∧
        ((v.rejected = none ∨ v.rejected = some []) → l = [])) ∧
      a.decisionDoc.isFinal = true ∧
      a.decisionJSON = renderDecisionJSON a.decisionDoc := by
  refine ⟨{ decisionJSON :=
              renderDecisionJSON (generateDecisionDoc result.input v id t),
            decisionDoc := generateDecisionDoc result.input v id t,
            todoData := generateTodoData v e id t,
            id := id, createdAt := t }, ?_, rfl, rfl, rfl, rfl, rfl, rfl, ?_, rfl, ?_, rfl, rfl⟩
  · simp only [generatorGenerate, hv, he]
  · exact ⟨_, rfl⟩
  · rcases hr : v.rejected with _ | l
    · exact ⟨[], by simp [generateDecisionDoc, convertRejectedOptions, hr], fun _ => rfl⟩
    · cases l with
      | nil =>
        exact ⟨[], by simp [generateDecisionDoc, convertRejectedOptions, hr], fun _ => rfl⟩
      | cons r rest =>
        refine ⟨r :: rest, by simp [generateDecisionDoc, convertRejectedOptions, hr], ?_⟩
        rintro (h | h)
        · exact nomatch h
        · exact absurd (Option.some.inj h) (List.cons_ne_nil r rest)

/-- Witness for `artifact_generation` at concrete inputs. -/
theorem artifact_generation_witness :
    ∃ a, generatorGenerate
        (some ⟨"go or python?".data, some witnessVerdict, some witnessExecution⟩)
        ⟨42⟩ ⟨2025, 12, 22, 3, 28, 32⟩ = .ok a ∧
      a.id = ⟨42⟩ ∧ a.createdAt = ⟨2025, 12, 22, 3, 28, 32⟩ ∧
      a.decisionDoc.id = Uuid.render ⟨42⟩ ∧ a.todoData.id = Uuid.render ⟨42⟩ ∧
      a.decisionDoc.createdAt = formatRFC3339UTC ⟨2025, 12, 22, 3, 28, 32⟩ ∧
      a.todoData.timestamp = formatRFC3339UTC ⟨2025, 12, 22, 3, 28, 32⟩ ∧
      (∃ p, formatRFC3339UTC ⟨2025, 12, 22, 3, 28, 32⟩ = p ++ ['Z']) ∧
      a.decisionDoc.input = "go or python?".data ∧
      (∃ l, a.decisionDoc.verdict.rejected = some l ∧
        ((witnessVerdict.rejected = none ∨ witnessVerdict.rejected = some []) → l = [])) ∧
      a.decisionDoc.isFinal = true ∧
      a.decisionJSON = renderDecisionJSON a.decisionDoc :=
  artifact_generation ⟨"go or python?".data, some witnessVerdict, some witnessExecution⟩
    witnessVerdict witnessExecution ⟨42⟩ ⟨2025, 12, 22, 3, 28, 32⟩ rfl rfl

/-! ## Repository (`internal/storage`)

Both repositories execute each operation atomically — the in-memory one
under its single `sync.RWMutex` writer lock, the PostgreSQL one inside a
transaction — so concurrent access is modelled by its serialization: state
passes explicitly through whole operations. -/

/-- `uuid.UUID` keys; `0` stands for `uuid.Nil`. -/
abbrev UuidV := Nat

/-- `storage.Decision`. -/
structure StoredDecision where
  id : UuidV
  input : Str
  verdict : Str        -- json.RawMessage, carried opaquely
  createdAt : Nat      -- time.Time; 0 = zero value
  isFinal : Bool
deriving DecidableEq, Repr

/-- `storage.Todo`. -/
structure StoredTodo where
  id : UuidV
  decisionID : UuidV
  content : Str
  createdAt : Nat
deriving DecidableEq, Repr

/-- The `decisions` and `todos` tables / maps. -/
structure DBState where
  decisions : List (UuidV × StoredDecision)
  todos : List (UuidV × StoredTodo)
deriving DecidableEq, Repr

/-- Map lookup. -/
def lookupKey {α : Type} (m : List (UuidV × α)) (k : UuidV) : Option α :=
  (m.find? (fun p => p.1 == k)).map Prod.snd

/-- Map assignment (overwrite). -/
def insertKey {α : Type} (m : List (UuidV × α)) (k : UuidV) (v : α) :
    List (UuidV × α) :=
  (k, v) :: m.filter (fun p => !(p.1 == k))

/-- The id/created-at defaulting `SaveArtifacts` applies to the decision
(`freshD` standing for the `uuid.New()` call, `now` for `time.Now()`). -/
def fillDecision (d : StoredDecision) (freshD : UuidV) (now : Nat) : StoredDecision :=
  { d with
    id := if d.id = 0 then freshD else d.id,
    createdAt := if d.createdAt = 0 then now else d.createdAt }

/-- The id/created-at defaulting applied to the todo. -/
def fillTodo (t : StoredTodo) (freshT : UuidV) (now : Nat) : StoredTodo :=
  { t with
    id := if t.id = 0 then freshT else t.id,
    createdAt := if t.createdAt = 0 then now else t.createdAt }

/-- `MemoryRepository.GetDecision`. -/
def memGetDecision (st : DBState) (id : UuidV) : Except GoErr StoredDecision :=
  match lookupKey st.decisions id with
  | some d => .ok d
  | none => .error (.message "decision not found".data)

/-- `MemoryRepository.GetTodoByDecisionID`: scan the todos map. -/
def memGetTodoByDecisionID (st : DBState) (decisionID : UuidV) :
    Except GoErr StoredTodo :=
  match st.todos.find? (fun p => p.2.decisionID == decisionID) with
  | some p => .ok p.2
  | none => .error (.message "todo not found for decision".data)

/-- `MemoryRepository.SaveArtifacts`: nil guard, then — holding the writer
lock — fill ids and times, stamp `t.DecisionID = d.ID`, and put both. -/
def memSaveArtifacts (st : DBState) (d : Option StoredDecision)
    (t : Option StoredTodo) (freshD freshT : UuidV) (now : Nat) :
    DBState × Option GoErr :=
  match d, t with
  | some d, some t =>
    (⟨insertKey st.decisions (fillDecision d freshD now).id (fillDecision d freshD now),
      insertKey st.todos (fillTodo t freshT now).id
        { fillTodo t freshT now with decisionID := (fillDecision d freshD now).id }⟩,
     none)
  | _, _ => (st, some (.message "decision and todo cannot be nil".data))

/-- A pgx transaction: the snapshot it began on plus its buffered inserts.
`Commit` publishes the buffer; `Rollback` (the deferred call) discards it. -/
structure Tx where
  base : DBState
  insDecisions : List (UuidV × StoredDecision)
  insTodos : List (UuidV × StoredTodo)
deriving DecidableEq, Repr

/-- Publishing the buffered inserts. -/
def Tx.commitState (tx : Tx) : DBState :=
  ⟨tx.insDecisions ++ tx.base.decisions, tx.insTodos ++ tx.base.todos⟩

/-- Injected transient failures of the environment (connection drops,
serialization failures, commit failures). -/
structure TxOracle where
  beginFails : Bool
  insertDecisionFails : Bool
  insertTodoFails : Bool
  commitFails : Bool
deriving DecidableEq, Repr

/-- `tx.Exec(INSERT INTO decisions ...)`: fails on a duplicate primary key
(against the snapshot or the buffer) or on an injected transient failure. -/
def txInsertDecision (tx : Tx) (d : StoredDecision) (fail : Bool) :
    Except GoErr Tx :=
  if (lookupKey tx.base.decisions d.id).isSome ||
      (lookupKey tx.insDecisions d.id).isSome || fail then
    .error (.message "failed to insert decision in transaction".data)
  else
    .ok { tx with insDecisions := (d.id, d) :: tx.insDecisions }

/-- `tx.Exec(INSERT INTO todos ...)`. -/
def txInsertTodo (tx : Tx) (t : StoredTodo) (fail : Bool) : Except GoErr Tx :=
  if (lookupKey tx.base.todos t.id).isSome ||
      (lookupKey tx.insTodos t.id).isSome || fail then
    .error (.message "failed to insert todo in transaction".data)
  else
    .ok { tx with insTodos := (t.id, t) :: tx.insTodos }

/-- `PostgresRepository.GetDecision`. -/
def pgGetDecision (st : DBState) (id : UuidV) : Except GoErr StoredDecision :=
  match lookupKey st.decisions id with
  | some d => .ok d
  | none => .error (.message "decision not found".data)

/-- `PostgresRepository.GetTodoByDecisionID`. -/
def pgGetTodoByDecisionID (st : DBState) (decisionID : UuidV) :
    Except GoErr StoredTodo :=
  match st.todos.find? (fun p => p.2.decisionID == decisionID) with
  | some p => .ok p.2
  | none => .error (.message "todo not found for decision".data)

/-- `PostgresRepository.SaveArtifacts`: nil guard, `Begin`, fill ids and
times, stamp `t.DecisionID = d.ID`, insert the decision then the todo into
the transaction, `Commit`; on each failure the deferred `Rollback` leaves
the published state untouched. -/
def pgSaveArtifacts (st : DBState) (d : Option StoredDecision)
    (t : Option StoredTodo) (freshD freshT : UuidV) (now : Nat)
    (oracle : TxOracle) : DBState × Option GoErr :=
  match d, t with
  | some d, some t =>
    if oracle.beginFails then
      (st, some (.message "failed to begin transaction".data))
    else
      match txInsertDecision ⟨st, [], []⟩ (fillDecision d freshD now)
          oracle.insertDecisionFails with
      | .error e => (st, some e)
      | .ok tx =>
        match txInsertTodo tx
            { fillTodo t freshT now with decisionID := (fillDecision d freshD now).id }
            oracle.insertTodoFails with
        | .error e => (st, some e)
        | .ok tx =>
          if oracle.commitFails then
            (st, some (.message "failed to commit transaction".data))
          else
            (tx.commitState, none)
  | _, _ => (st, some (.message "decision and todo cannot be nil".data))

theorem txInsertDecision_ok (tx : Tx) (d : StoredDecision) (fail : Bool)
    (tx' : Tx) (h : txInsertDecision tx d fail = .ok tx') :
    tx' = { tx with insDecisions := (d.id, d) :: tx.insDecisions } := by
  unfold txInsertDecision at h
  split at h
  · cases h
  · cases h
    rfl

theorem txInsertTodo_ok (tx : Tx) (t : StoredTodo) (fail : Bool)
    (tx' : Tx) (h : txInsertTodo tx t fail = .ok tx') :
    tx' = { tx with insTodos := (t.id, t) :: tx.insTodos } := by
  unfold txInsertTodo at h
  split at h
  · cases h
  · cases h
    rfl

/-- Every `PostgresRepository.SaveArtifacts` call either rolls back — the
published state unchanged — or commits exactly the two linked rows. -/
theorem pgSaveArtifacts_shape (st : DBState) (d : StoredDecision)
    (t : StoredTodo) (freshD freshT : UuidV) (now : Nat) (oracle : TxOracle) :
    (∃ e, pgSaveArtifacts st (some d) (some t) freshD freshT now oracle
        = (st, some e)) ∨
    pgSaveArtifacts st (some d) (some t) freshD freshT now oracle
      = (⟨((fillDecision d freshD now).id, fillDecision d freshD now) :: st.decisions,
          (({ fillTodo t freshT now with
              decisionID := (fillDecision d freshD now).id }).id,
            { fillTodo t freshT now with
              decisionID := (fillDecision d freshD now).id }) :: st.todos⟩,
         none) := by
  simp only [pgSaveArtifacts]
  split
  · exact Or.inl ⟨_, rfl⟩
  · split
    · exact Or.inl ⟨_, rfl⟩
    · split
      · exact Or.inl ⟨_, rfl⟩
      · split
        · exact Or.inl ⟨_, rfl⟩
        · refine Or.inr ?_
          rename_i x1 tx1 h1 x2 tx2 h2 hc
          have e1 := txInsertDecision_ok _ _ _ _ h1
          have e2 := txInsertTodo_ok _ _ _ _ h2
          rw [e2, e1]
          unfold Tx.commitState
          simp

/-- C1: `SaveArtifacts` is atomic in both repositories.  PostgreSQL: on any
error (begin, either insert, or commit) the published state is unchanged, so
a previously absent id still reads as not-found through both `GetDecision`
and `GetTodoByDecisionID`; on success both rows are committed with the
todo's `decision_id` stamped to the decision's id.  The in-memory
repository commits both rows under its single writer lock (it errors only
on nil arguments, leaving the state unchanged then). -/
theorem save_artifacts_atomicity
    (st : DBState) (d : StoredDecision) (t : StoredTodo)
    (freshD freshT : UuidV) (now : Nat) (oracle : TxOracle) :
    (∀ e, (pgSaveArtifacts st (some d) (some t) freshD freshT now oracle).2 = some e →
      (pgSaveArtifacts st (some d) (some t) freshD freshT now oracle).1 = st) ∧
    (∀ id, lookupKey st.decisions id = none →
      pgGetDecision st id = .error (.message "decision not found".data)) ∧
    (∀ id, st.todos.find? (fun p => p.2.decisionID == id) = none →
      pgGetTodoByDecisionID st id
        = .error (.message "todo not found for decision".data)) ∧
    ((pgSaveArtifacts st (some d) (some t) freshD freshT now oracle).2 = none →
      pgGetDecision (pgSaveArtifacts st (some d) (some t) freshD freshT now oracle).1
          (fillDecision d freshD now).id = .ok (fillDecision d freshD now) ∧
      pgGetTodoByDecisionID
          (pgSaveArtifacts st (some d) (some t) freshD freshT now oracle).1
          (fillDecision d freshD now).id
        = .ok { fillTodo t freshT now with
                decisionID := (fillDecision d freshD now).id }) ∧
    ((memSaveArtifacts st (some d) (some t) freshD freshT now).2 = none ∧
      memGetDecision (memSaveArtifacts st (some d) (some t) freshD freshT now).1
          (fillDecision d freshD now).id = .ok (fillDecision d freshD now) ∧
      memGetTodoByDecisionID (memSaveArtifacts st (some d) (some t) freshD freshT now).1
          (fillDecision d freshD now).id
        = .ok { fillTodo t freshT now with
                decisionID := (fillDecision d freshD now).id }) ∧
    (memSaveArtifacts st none (some t) freshD freshT now
        = (st, some (.message "decision and todo cannot be nil".data)) ∧
     memSaveArtifacts st (some d) none freshD freshT now
        = (st, some (.message "decision and todo cannot be nil".data))) := by
  refine ⟨?_, ?_, ?_, ?_, ?_, ?_⟩
  · intro e h
    rcases pgSaveArtifacts_shape st d t freshD freshT now oracle with ⟨e', heq⟩ | heq
    · rw [heq]
    · rw [heq] at h
      cases h
  · intro id h
    unfold pgGetDecision
    rw [h]
  · intro id h
    unfold pgGetTodoByDecisionID
    rw [h]
  · intro h
    rcases pgSaveArtifacts_shape st d t freshD freshT now oracle with ⟨e', heq⟩ | heq
    · rw [heq] at h
      cases h
    · rw [heq]
      constructor
      · unfold pgGetDecision lookupKey
        simp [List.find?]
      · unfold pgGetTodoByDecisionID
        simp [List.find?]
  · refine ⟨rfl, ?_, ?_⟩
    · unfold memSaveArtifacts memGetDecision insertKey lookupKey
      simp [List.find?]
    · unfold memSaveArtifacts memGetTodoByDecisionID insertKey
      simp [List.find?]
  · exact ⟨rfl, rfl⟩

/-- Witness for `save_artifacts_atomicity`: on the empty state with a
well-behaved environment the PostgreSQL save commits and both reads find
the linked rows. -/
theorem save_artifacts_atomicity_witness :
    pgGetDecision (pgSaveArtifacts ⟨[], []⟩
        (some ⟨1, "in".data, "v".data, 5, true⟩)
        (some ⟨2, 0, "todo".data, 5⟩) 7 8 9 ⟨false, false, false, false⟩).1
        (fillDecision ⟨1, "in".data, "v".data, 5, true⟩ 7 9).id
      = .ok (fillDecision ⟨1, "in".data, "v".data, 5, true⟩ 7 9) ∧
    pgGetTodoByDecisionID (pgSaveArtifacts ⟨[], []⟩
        (some ⟨1, "in".data, "v".data, 5, true⟩)
        (some ⟨2, 0, "todo".data, 5⟩) 7 8 9 ⟨false, false, false, false⟩).1
        (fillDecision ⟨1, "in".data, "v".data, 5, true⟩ 7 9).id
      = .ok { fillTodo ⟨2, 0, "todo".data, 5⟩ 8 9 with
              decisionID := (fillDecision ⟨1, "in".data, "v".data, 5, true⟩ 7 9).id } :=
  (save_artifacts_atomicity ⟨[], []⟩ ⟨1, "in".data, "v".data, 5, true⟩
    ⟨2, 0, "todo".data, 5⟩ 7 8 9 ⟨false, false, false, false⟩).2.2.2.1 (by decide)

/-! ## LLM transport and retry loop (verdict.go)

`openAIClient.Complete` and `anthropicClient.Complete` are structurally
identical (OpenAI's `choices` and Anthropic's `content` both being the list
whose first entry is returned), so one embedding covers both.  The Go loop
sleeps at the top of every iteration with `attempt > 0`; the embedding
equivalently performs the select-and-sleep between a retryable failure and
the next attempt, which preserves both the visited attempts and the slept
durations.  Model time advances only during those sleeps. -/

/-- What the provider returns to one `makeRequest` attempt, chosen by the
environment. -/
inductive ReqOutcome where
  | okResp (choices : List Str)   -- HTTP 200, parsed body
  | http429                       -- StatusTooManyRequests
  | httpStatus (code : Nat)       -- other non-200 status
  | providerError                 -- 200 but body.Error set
  | doErr                         -- httpClient.Do failed
deriving DecidableEq, Repr

/-- `makeRequest` at model time `t`.  On a `Do` failure the source consults
`ctx.Err()`: a passed deadline becomes the retryable `ErrTimeout`
sentinel, anything else the wrapped, non-retryable transport error. -/
def makeRequest (c : Ctx) (t : Nat) : ReqOutcome → Except GoErr (List Str)
  | .doErr =>
    if c.deadlinePassed t then .error .timeoutSentinel
    else .error (.requestFailed
      (if c.isCancelled t then .ctxCanceled
       else .message "connection refused".data))
  | .http429 => .error .rateLimited
  | .httpStatus code => .error (.apiError code)
  | .providerError => .error (.message "provider error".data)
  | .okResp choices => .ok choices

/-- The retry test of `Complete`:
`errors.Is(err, ErrRateLimited) || errors.Is(err, ErrTimeout)`. -/
def retryableErr (e : GoErr) : Bool :=
  e = GoErr.rateLimited ∨ e = GoErr.timeoutSentinel

/-- The first moment `ctx.Done()` fires, if ever (semantics of the `select`
racing `ctx.Done()` against the backoff timer). -/
def Ctx.firstEvent (c : Ctx) : Option Nat :=
  match c.cancelledAt, c.deadlineAt with
  | none, none => none
  | some a, none => some a
  | none, some d => some d
  | some a, some d => some (min a d)

/-- The `select` guarding the `2^attempt`-second backoff sleep before
attempt `attempt`: if the context is already done, return `ctx.Err()`
without sleeping; if it fires during the sleep, return `ctx.Err()` at that
moment; otherwise sleep through. -/
def backoffStep (c : Ctx) (attempt t : Nat) :
    Option ((Except GoErr Str) × Nat) :=
  if c.isDone t then some (.error (c.errVal t), t)
  else
    match c.firstEvent with
    | some ev =>
      if ev ≤ t + 2 ^ attempt then some (.error (c.errVal ev), ev) else none
    | none => none

/-- The loop of `Complete` at attempt number `attempt` and model time `t`:
request, return the first choice on success (`emptyChoices` if there is
none), fail fast on non-retryable errors, and on a retryable error either
exhaust (`attempt + 1 > MaxRetries`, Go's loop exit wrapping the last
error) or back off and recur.  `fuel = maxRetries - attempt` bounds the
recursion and never reaches the fallback branch. -/
def completeAux (c : Ctx) (env : Nat → ReqOutcome) (maxRetries : Nat) :
    Nat → Nat → Nat → (Except GoErr Str) × Nat
  | fuel, attempt, t =>
    match makeRequest c t (env attempt) with
    | .ok [] => (.error .emptyChoices, t)
    | .ok (s :: _) => (.ok s, t)
    | .error e =>
      if retryableErr e then
        if attempt + 1 > maxRetries then (.error (.maxRetries e), t)
        else
          match fuel with
          | 0 => (.error (.maxRetries e), t)
          | fuel' + 1 =>
            match backoffStep c (attempt + 1) t with
            | some r => r
            | none =>
              completeAux c env maxRetries fuel' (attempt + 1) (t + 2 ^ (attempt + 1))
      else (.error e, t)

/-- `Complete`: the loop from attempt 0. -/
def complete (c : Ctx) (env : Nat → ReqOutcome) (maxRetries t0 : Nat) :
    (Except GoErr Str) × Nat :=
  completeAux c env maxRetries maxRetries 0 t0

/-- The context that never cancels and has no deadline. -/
def quietCtx : Ctx := ⟨none, none⟩

theorem quietCtx_not_done (t : Nat) : quietCtx.isDone t = false := rfl

theorem backoffStep_quiet (attempt t : Nat) :
    backoffStep quietCtx (attempt) t = none := rfl

theorem completeAux_429_ok (env : Nat → ReqOutcome) (maxRetries : Nat)
    (s : Str) (rest : List Str) :
    ∀ k attempt t, attempt + k ≤ maxRetries →
      (∀ i, i < k → env (attempt + i) = .http429) →
      env (attempt + k) = .okResp (s :: rest) →
      completeAux quietCtx env maxRetries (maxRetries - attempt) attempt t
        = (.ok s, t + (2 ^ (attempt + k + 1) - 2 ^ (attempt + 1))) := by
  intro k
  induction k with
  | zero =>
    intro attempt t _ _ hok
    rw [completeAux]
    rw [Nat.add_zero] at hok
    rw [hok]
    simp [makeRequest]
  | succ k ih =>
    intro attempt t hle hfail hok
    rw [completeAux]
    have h0 : env attempt = .http429 := by
      have := hfail 0 (Nat.succ_pos k)
      simpa using this
    rw [h0]
    have hretry : retryableErr GoErr.rateLimited = true := by decide
    have hnot : ¬ attempt + 1 > maxRetries := by omega
    have hfuel : maxRetries - attempt = (maxRetries - (attempt + 1)) + 1 := by omega
    simp only [makeRequest, hretry, if_true, hnot, if_false, hfuel,
      backoffStep_quiet]
    have := ih (attempt + 1) (t + 2 ^ (attempt + 1)) (by omega)
      (fun i hi => by
        have := hfail (i + 1) (by omega)
        rwa [show attempt + (i + 1) = attempt + 1 + i by omega] at this)
      (by rwa [show attempt + 1 + k = attempt + (k + 1) by omega])
    rw [this]
    have e1 : 2 ^ (attempt + 1 + k + 1) = 2 ^ (attempt + (k + 1) + 1) := by
      ring_nf
    have e2 : (2:Nat) ^ (attempt + 1 + 1) = 2 * 2 ^ (attempt + 1) := by
      rw [pow_succ]
      ring
    have e3 : (2:Nat) ^ (attempt + (k + 1) + 1) ≥ 2 ^ (attempt + 1 + 1) :=
      Nat.pow_le_pow_right (by norm_num) (by omega)
    rw [Prod.mk.injEq]
    exact ⟨rfl, by omega⟩

theorem completeAux_429_exhaust (env : Nat → ReqOutcome) (maxRetries : Nat) :
    ∀ fuel attempt t, fuel = maxRetries - attempt → attempt ≤ maxRetries →
      (∀ i, attempt ≤ i → i ≤ maxRetries → env i = .http429) →
      completeAux quietCtx env maxRetries fuel attempt t
        = (.error (.maxRetries .rateLimited),
           t + (2 ^ (maxRetries + 1) - 2 ^ (attempt + 1))) := by
  intro fuel
  induction fuel with
  | zero =>
    intro attempt t hfuel hle hall
    have ha : attempt = maxRetries := by omega
    rw [completeAux, hall attempt le_rfl hle]
    have hretry : retryableErr GoErr.rateLimited = true := by decide
    have hgt : attempt + 1 > maxRetries := by omega
    simp only [makeRequest, hretry, if_true, hgt]
    subst ha
    simp
  | succ fuel ih =>
    intro attempt t hfuel hle hall
    rw [completeAux, hall attempt le_rfl hle]
    have hretry : retryableErr GoErr.rateLimited = true := by decide
    have hnot : ¬ attempt + 1 > maxRetries := by omega
    simp only [makeRequest, hretry, if_true, hnot, if_false, backoffStep_quiet]
    have := ih (attempt + 1) (t + 2 ^ (attempt + 1)) (by omega) (by omega)
      (fun i h1 h2 => hall i (by omega) h2)
    rw [this]
    have e2 : (2:Nat) ^ (attempt + 1 + 1) = 2 * 2 ^ (attempt + 1) := by
      rw [pow_succ]
      ring
    have e3 : (2:Nat) ^ (maxRetries + 1) ≥ 2 ^ (attempt + 1 + 1) :=
      Nat.pow_le_pow_right (by norm_num) (by omega)
    rw [Prod.mk.injEq]
    exact ⟨rfl, by omega⟩

/-- C6 amended: `Complete` retries exactly the failures observed as
`ErrRateLimited` (HTTP 429) or `ErrTimeout` (deadline exceeded while
waiting on the provider), sleeping `2^attempt` seconds before attempt
`attempt`, with at most `maxRetries` additional attempts; every other
error — connection errors included — fails immediately with no sleep;
cancellation is observed before sleeping; a deadline that fires during
backoff returns the context's deadline error. -/
theorem llm_retry_policy :
    (∀ c env (n t : Nat) e, makeRequest c t (env 0) = .error e →
      retryableErr e = false → complete c env n t = (.error e, t)) ∧
    (∀ (env : Nat → ReqOutcome) (n t : Nat), env 0 = .okResp [] →
      complete quietCtx env n t = (.error .emptyChoices, t)) ∧
    (∀ env n k t (s : Str) rest, k ≤ n →
      (∀ i, i < k → env i = .http429) → env k = .okResp (s :: rest) →
      complete quietCtx env n t = (.ok s, t + (2 ^ (k + 1) - 2))) ∧
    (∀ env n t, (∀ i, i ≤ n → env i = .http429) →
      complete quietCtx env n t
        = (.error (.maxRetries .rateLimited), t + (2 ^ (n + 1) - 2))) ∧
    (∀ (tc t n : Nat) env, tc ≤ t → env 0 = .http429 → 1 ≤ n →
      complete ⟨some tc, none⟩ env n t = (.error .ctxCanceled, t)) ∧
    (∀ (dl t n : Nat) env, t < dl → dl ≤ t + 2 → env 0 = .http429 → 1 ≤ n →
      complete ⟨none, some dl⟩ env n t = (.error .ctxDeadlineExceeded, dl)) := by
  refine ⟨?_, ?_, ?_, ?_, ?_, ?_⟩
  · intro c env n t e h hr
    rw [complete, completeAux, h]
    simp [hr]
  · intro env n t h
    rw [complete, completeAux, h]
    rfl
  · intro env n k t s rest hk hfail hok
    have := completeAux_429_ok env n s rest k 0 t (by omega)
      (fun i hi => by simpa using hfail i hi) (by simpa using hok)
    unfold complete
    rw [Nat.sub_zero] at this
    rw [this]
    norm_num
  · intro env n t hall
    have := completeAux_429_exhaust env n n 0 t (by omega) (by omega)
      (fun i _ h2 => hall i h2)
    unfold complete
    rw [this]
    norm_num
  · intro tc t n env htc h429 hn
    obtain ⟨m, rfl⟩ : ∃ m, n = m + 1 := ⟨n - 1, by omega⟩
    have hretry : retryableErr GoErr.rateLimited = true := by decide
    have hnot : ¬ 0 + 1 > m + 1 := by omega
    have hcanc : Ctx.isCancelled ⟨some tc, none⟩ t = true := by
      show decide (tc ≤ t) = true
      exact decide_eq_true htc
    have hdone : Ctx.isDone ⟨some tc, none⟩ t = true := by
      unfold Ctx.isDone
      rw [hcanc]
      rfl
    have herr : Ctx.errVal ⟨some tc, none⟩ t = .ctxCanceled := by
      unfold Ctx.errVal
      rw [hcanc]
      rfl
    rw [complete, completeAux, h429]
    simp only [makeRequest, hretry, if_true, hnot, if_false,
      backoffStep, hdone, herr]
  · intro dl t n env h1 h2 h429 hn
    obtain ⟨m, rfl⟩ : ∃ m, n = m + 1 := ⟨n - 1, by omega⟩
    have hretry : retryableErr GoErr.rateLimited = true := by decide
    have hnot : ¬ 0 + 1 > m + 1 := by omega
    have hdp : Ctx.deadlinePassed ⟨none, some dl⟩ t = false := by
      show decide (dl ≤ t) = false
      exact decide_eq_false (by omega)
    have hdone : Ctx.isDone ⟨none, some dl⟩ t = false := by
      unfold Ctx.isDone
      rw [hdp]
      rfl
    have hev : Ctx.firstEvent ⟨none, some dl⟩ = some dl := rfl
    have herr : Ctx.errVal ⟨none, some dl⟩ dl = .ctxDeadlineExceeded := by
      unfold Ctx.errVal
      rw [show Ctx.isCancelled ⟨none, some dl⟩ dl = false from rfl]
      rfl
    rw [complete, completeAux, h429]
    simp only [makeRequest, hretry, if_true, hnot, if_false,
      backoffStep, hdone, hev]
    rw [if_pos (show dl ≤ t + 2 ^ 1 by simpa using h2)]
    simp [herr]

/-- Witness for `llm_retry_policy`: one 429 then success yields the first
choice after a single 2-second backoff. -/
theorem llm_retry_policy_witness :
    complete quietCtx
        (fun i => if i = 0 then .http429 else .okResp ["ok".data]) 3 0
      = (.ok "ok".data, 2) := by
  have := llm_retry_policy.2.2.1
    (fun i => if i = 0 then ReqOutcome.http429 else .okResp ["ok".data])
    3 1 0 "ok".data [] (by omega)
    (fun i hi => by interval_cases i <;> rfl) (by rfl)
  simpa using this

/-- C6 counterexample: a connection error on the first attempt is NOT
retried — `Complete` fails immediately even though the next attempt would
have succeeded — contradicting the claim that connection errors are
retryable. -/
theorem llm_connection_error_counterexample :
    complete quietCtx
        (fun i => if i = 0 then .doErr else .okResp ["ok".data]) 3 0
      = (.error (.requestFailed (.message "connection refused".data)), 0) := by
  rfl

/-! ## JSON extraction (`extractJSON`, verdict.go)

The backtick (U+0060) and the braces are written with `\x60`, `\x7b`,
`\x7d` escapes throughout. -/

/-- RE2 `\s`: `[\t\n\f\r ]`. -/
def isRegexSpace (ch : Char) : Bool :=
  ch = '\t' ∨ ch = '\n' ∨ ch = '\x0c' ∨ ch = '\r' ∨ ch = ' '

/-- The lazy `(.*?)\n\x60\x60\x60` tail of both fence regexes: content up to
the first occurrence of the closing fence, plus the remainder after it. -/
def findClose : Str → Option (Str × Str)
  | '\n' :: '\x60' :: '\x60' :: '\x60' :: rest => some ([], rest)
  | ch :: rest =>
    match findClose rest with
    | some (content, rem) => some (ch :: content, rem)
    | none => none
  | [] => none

/-- The `\s*\n(.*?)\n\x60\x60\x60` part after the opening fence, with
Perl-style backtracking: the greedy `\s*` prefers consuming the current
whitespace character, falling back to matching it as the `\n`. -/
def matchAfterFence : Str → Option (Str × Str)
  | [] => none
  | ch :: rest =>
    if isRegexSpace ch then
      match matchAfterFence rest with
      | some r => some r
      | none => if ch = '\n' then findClose rest else none
    else none

/-- Leftmost match of `` (?s)\x60\x60\x60json\s*\n(.*?)\n\x60\x60\x60 ``
(`jsonBlockRegex.FindStringSubmatch`), returning the captured content. -/
def findJsonBlock : Str → Option Str
  | [] => none
  | ch :: rest =>
    if ("\x60\x60\x60json".data).isPrefixOf (ch :: rest) then
      match matchAfterFence ((ch :: rest).drop 7) with
      | some r => some r.1
      | none => findJsonBlock rest
    else findJsonBlock rest

/-- Leftmost match of `` (?s)\x60\x60\x60\s*\n(.*?)\n\x60\x60\x60 ``
(`codeBlockRegex.FindStringSubmatch`), returning the captured content and
the remainder after the match. -/
def findCodeBlock : Str → Option (Str × Str)
  | [] => none
  | ch :: rest =>
    if ("\x60\x60\x60".data).isPrefixOf (ch :: rest) then
      match matchAfterFence ((ch :: rest).drop 3) with
      | some r => some r
      | none => findCodeBlock rest
    else findCodeBlock rest

/-- All successive non-overlapping generic fenced blocks (the `FindAll`
reading the specification's step 2 quantifies over). -/
def allCodeBlocks : Nat → Str → List Str
  | 0, _ => []
  | fuel + 1, s =>
    match findCodeBlock s with
    | none => []
    | some (content, rem) => content :: allCodeBlocks fuel rem

/-! ### `json.Valid` (`encoding/json`): a fuel-bounded recursive-descent
validator for the JSON grammar Go's scanner accepts.  The fuel
`2 * length + 2` dominates the recursion (each unit of nesting or
separator consumes input). -/

/-- JSON inter-token whitespace. -/
def skipWS : Str → Str :=
  List.dropWhile (fun ch => ch = ' ' ∨ ch = '\t' ∨ ch = '\r' ∨ ch = '\n')

def isHexDigit (ch : Char) : Bool :=
  ch.isDigit ∨ ('a' ≤ ch ∧ ch ≤ 'f') ∨ ('A' ≤ ch ∧ ch ≤ 'F')

/-- The body of a JSON string after the opening quote; returns the
remainder after the closing quote. -/
def parseStringRest : Str → Option Str
  | [] => none
  | '"' :: rest => some rest
  | '\\' :: e :: rest =>
    if e = 'u' then
      match rest with
      | a :: b :: cc :: d :: rest' =>
        if isHexDigit a ∧ isHexDigit b ∧ isHexDigit cc ∧ isHexDigit d then
          parseStringRest rest'
        else none
      | _ => none
    else if e = '"' ∨ e = '\\' ∨ e = '/' ∨ e = 'b' ∨ e = 'f' ∨ e = 'n' ∨
        e = 'r' ∨ e = 't' then
      parseStringRest rest
    else none
  | ch :: rest => if ch.toNat < 0x20 then none else parseStringRest rest

def dropDigits : Str → Str
  | ch :: rest => if ch.isDigit then dropDigits rest else ch :: rest
  | [] => []

/-- Optional `.digits` fraction. -/
def parseFracPart : Str → Option Str
  | '.' :: rest =>
    match rest with
    | d :: _ => if d.isDigit then some (dropDigits rest) else none
    | [] => none
  | s => some s

/-- Optional `[eE][+-]?digits` exponent. -/
def parseExpPart : Str → Option Str
  | ch :: rest =>
    if ch = 'e' ∨ ch = 'E' then
      match rest with
      | sgn :: rest' =>
        if sgn = '+' ∨ sgn = '-' then
          match rest' with
          | d :: _ => if d.isDigit then some (dropDigits rest') else none
          | [] => none
        else if sgn.isDigit then some (dropDigits rest)
        else none
      | [] => none
    else some (ch :: rest)
  | [] => some []

/-- A JSON number: `-? (0 | [1-9][0-9]*) frac? exp?`. -/
def parseNumber (s : Str) : Option Str :=
  match (match s with | '-' :: rest => rest | _ => s) with
  | '0' :: rest => (parseFracPart rest).bind parseExpPart
  | ch :: rest =>
    if ch.isDigit then (parseFracPart (dropDigits rest)).bind parseExpPart
    else none
  | [] => none

mutual

/-- A JSON value; returns the remainder after it. -/
def parseValue : Nat → Str → Option Str
  | 0, _ => none
  | fuel + 1, s =>
    match s with
    | [] => none
    | 't' :: 'r' :: 'u' :: 'e' :: rest => some rest
    | 'f' :: 'a' :: 'l' :: 's' :: 'e' :: rest => some rest
    | 'n' :: 'u' :: 'l' :: 'l' :: rest => some rest
    | '"' :: rest => parseStringRest rest
    | '\x7b' :: rest => parseMembers fuel (skipWS rest) true
    | '[' :: rest => parseElems fuel (skipWS rest) true
    | ch :: _ =>
      if ch = '-' ∨ ch.isDigit then parseNumber s else none

/-- Object members after `\x7b` (`first` while no member parsed yet). -/
def parseMembers : Nat → Str → Bool → Option Str
  | 0, _, _ => none
  | fuel + 1, s, first =>
    match s with
    | '\x7d' :: rest => if first then some rest else none
    | '"' :: rest =>
      match parseStringRest rest with
      | none => none
      | some afterKey =>
        match skipWS afterKey with
        | ':' :: afterColon =>
          match parseValue fuel (skipWS afterColon) with
          | none => none
          | some afterVal =>
            match skipWS afterVal with
            | ',' :: afterComma => parseMembers fuel (skipWS afterComma) false
            | '\x7d' :: rest' => some rest'
            | _ => none
        | _ => none
    | _ => none

/-- Array elements after `[`. -/
def parseElems : Nat → Str → Bool → Option Str
  | 0, _, _ => none
  | fuel + 1, s, first =>
    match s with
    | ']' :: rest => if first then some rest else none
    | _ =>
      match parseValue fuel s with
      | none => none
      | some afterVal =>
        match skipWS afterVal with
        | ',' :: afterComma => parseElems fuel (skipWS afterComma) false
        | ']' :: rest' => some rest'
        | _ => none

end

/-- `json.Valid`: one complete value surrounded only by whitespace. -/
def jsonValid (s : Str) : Bool :=
  match parseValue (2 * s.length + 2) (skipWS s) with
  | some rest => skipWS rest = []
  | none => false

/-- Index of the first occurrence of `x`. -/
def firstIdxOf (x : Char) : Str → Option Nat
  | [] => none
  | ch :: rest => if ch = x then some 0 else (firstIdxOf x rest).map (· + 1)

/-- Index of the last occurrence of `x`. -/
def lastIdxOf (x : Char) (s : Str) : Option Nat :=
  (firstIdxOf x s.reverse).map (fun j => s.length - 1 - j)

/-- `FindString` of `(?s)\x7b.*\x7d` (and the bracket variant): under the
regexp's leftmost-first greedy semantics the match, when one exists, runs
from the first `o` to the last `c` after it; if the last `c` precedes the
first `o`, no later start can match either. -/
def spanFirstLast (o c : Char) (s : Str) : Option Str :=
  match firstIdxOf o s, lastIdxOf c s with
  | some i, some j => if i < j then some ((s.drop i).take (j - i + 1)) else none
  | _, _ => none

/-- Every substring of `s` that begins with `o` and ends with `c`, as the
specification's steps 3–4 quantify. -/
def spanCandidates (o c : Char) (s : Str) : List Str :=
  (List.range s.length).flatMap (fun i =>
    (List.range s.length).filterMap (fun j =>
      if i < j ∧ s[i]? = some o ∧ s[j]? = some c then
        some ((s.drop i).take (j - i + 1))
      else none))

/-- Keep the longer of an accumulator and a candidate. -/
def pickLonger (best : Option Str) (cand : Str) : Option Str :=
  match best with
  | none => some cand
  | some b => if b.length < cand.length then some cand else best

/-- The longest substring of `s` beginning with `o` and ending with `c`. -/
def longestSpan (o c : Char) (s : Str) : Option Str :=
  (spanCandidates o c s).foldl pickLonger none

theorem firstIdxOf_some (x : Char) (s : Str) :
    ∀ i, firstIdxOf x s = some i →
      s[i]? = some x ∧ ∀ k, k < i → s[k]? ≠ some x := by
  induction s with
  | nil => intro i h; cases h
  | cons ch rest ih =>
    intro i h
    unfold firstIdxOf at h
    by_cases hc : ch = x
    · rw [if_pos hc] at h
      cases h
      refine ⟨by simp [hc], ?_⟩
      intro k hk
      exact absurd hk (by omega)
    · rw [if_neg hc] at h
      rcases hfi : firstIdxOf x rest with _ | j
      · rw [hfi] at h; cases h
      · rw [hfi] at h
        simp only [Option.map_some'] at h
        cases h
        obtain ⟨hget, hmin⟩ := ih j hfi
        refine ⟨by simpa using hget, ?_⟩
        intro k hk
        cases k with
        | zero => simp [hc]
        | succ m =>
          have := hmin m (by omega)
          simpa using this

theorem firstIdxOf_none (x : Char) (s : Str) :
    firstIdxOf x s = none → ∀ k : Nat, s[k]? ≠ some x := by
  induction s with
  | nil => intro _ k; simp
  | cons ch rest ih =>
    intro h k
    unfold firstIdxOf at h
    by_cases hc : ch = x
    · rw [if_pos hc] at h; cases h
    · rw [if_neg hc] at h
      cases k with
      | zero => simp [hc]
      | succ m =>
        have hnone : firstIdxOf x rest = none := by
          rcases hfi : firstIdxOf x rest with _ | j
          · rfl
          · rw [hfi] at h; cases h
        simpa using ih hnone m

theorem getElem?_some_lt (l : Str) (i : Nat) (x : Char)
    (h : l[i]? = some x) : i < l.length := by
  by_contra hge
  rw [List.getElem?_eq_none (by omega)] at h
  cases h

theorem lastIdxOf_some (x : Char) (s : Str) (j : Nat)
    (h : lastIdxOf x s = some j) :
    s[j]? = some x ∧ ∀ k, j < k → s[k]? ≠ some x := by
  unfold lastIdxOf at h
  rcases hfi : firstIdxOf x s.reverse with _ | j'
  · rw [hfi] at h; cases h
  · rw [hfi] at h
    simp only [Option.map_some'] at h
    cases h
    obtain ⟨hget, hmin⟩ := firstIdxOf_some x s.reverse j' hfi
    have hj' : j' < s.length := by
      have := getElem?_some_lt _ _ _ hget
      rwa [List.length_reverse] at this
    constructor
    · rw [← hget, List.getElem?_reverse hj']
    · intro k hk
      by_cases hklen : k < s.length
      · have hk' : s.length - 1 - k < j' := by omega
        have hne := hmin _ hk'
        rw [List.getElem?_reverse (by omega)] at hne
        rwa [show s.length - 1 - (s.length - 1 - k) = k by omega] at hne
      · rw [List.getElem?_eq_none (by omega)]
        simp

theorem lastIdxOf_none (x : Char) (s : Str)
    (h : lastIdxOf x s = none) : ∀ k : Nat, s[k]? ≠ some x := by
  unfold lastIdxOf at h
  rcases hfi : firstIdxOf x s.reverse with _ | j'
  · intro k
    by_cases hk : k < s.length
    · have := firstIdxOf_none x s.reverse hfi (s.length - 1 - k)
      rw [List.getElem?_reverse (by omega)] at this
      rwa [show s.length - 1 - (s.length - 1 - k) = k by omega] at this
    · rw [List.getElem?_eq_none (by omega)]
      simp
  · rw [hfi] at h; cases h

theorem mem_spanCandidates (o c : Char) (s : Str) (x : Str) :
    x ∈ spanCandidates o c s ↔
      ∃ i j, i < j ∧ j < s.length ∧ s[i]? = some o ∧
        s[j]? = some c ∧ x = (s.drop i).take (j - i + 1) := by
  unfold spanCandidates
  simp only [List.mem_flatMap, List.mem_filterMap, List.mem_range]
  constructor
  · rintro ⟨i, hi, j, hj, hcond⟩
    by_cases hp : i < j ∧ s[i]? = some o ∧ s[j]? = some c
    · rw [if_pos hp] at hcond
      cases hcond
      exact ⟨i, j, hp.1, hj, hp.2.1, hp.2.2, rfl⟩
    · rw [if_neg hp] at hcond; cases hcond
  · rintro ⟨i, j, hij, hjlen, ho, hc, rfl⟩
    refine ⟨i, by omega, j, hjlen, ?_⟩
    rw [if_pos ⟨hij, ho, hc⟩]

theorem spanCandidate_length (s : Str) (i j : Nat) (hij : i < j)
    (hj : j < s.length) :
    ((s.drop i).take (j - i + 1)).length = j - i + 1 := by
  rw [List.length_take, List.length_drop]
  omega

theorem foldl_pickLonger_spec (m : Str) :
    ∀ (l : List Str) (acc : Option Str),
      (∀ x ∈ l, x.length ≤ m.length ∧ (x.length = m.length → x = m)) →
      (∀ b, acc = some b → b.length ≤ m.length ∧ (b.length = m.length → b = m)) →
      (m ∈ l ∨ acc = some m) →
      l.foldl pickLonger acc = some m := by
  intro l
  induction l with
  | nil =>
    intro acc _ _ hreach
    rcases hreach with h | h
    · cases h
    · exact h
  | cons x rest ih =>
    intro acc hl hacc hreach
    rw [List.foldl_cons]
    apply ih
    · intro y hy
      exact hl y (List.mem_cons_of_mem _ hy)
    · intro b hb
      rcases acc with _ | a
      · cases hb
        exact hl x (List.mem_cons_self x rest)
      · simp only [pickLonger] at hb
        by_cases hlt : a.length < x.length
        · rw [if_pos hlt] at hb
          cases hb
          exact hl x (List.mem_cons_self x rest)
        · rw [if_neg hlt] at hb
          cases hb
          exact hacc b rfl
    · rcases hreach with hm | hacc'
      · rcases List.mem_cons.mp hm with rfl | hm'
        · right
          rcases acc with _ | a
          · rfl
          · obtain ⟨hle, heq⟩ := hacc a rfl
            simp only [pickLonger]
            by_cases hlt : a.length < m.length
            · rw [if_pos hlt]
            · rw [if_neg hlt]
              rw [heq (by omega)]
        · left
          exact hm'
      · right
        rw [hacc']
        have hx := hl x (List.mem_cons_self x rest)
        simp only [pickLonger]
        rw [if_neg (by omega)]

theorem longestSpan_eq_spanFirstLast (o c : Char) (s : Str) :
    longestSpan o c s = spanFirstLast o c s := by
  unfold longestSpan spanFirstLast
  rcases hf : firstIdxOf o s with _ | i₀
  · have hempty : spanCandidates o c s = [] := by
      rcases hsc : spanCandidates o c s with _ | ⟨x, rest⟩
      · rfl
      · exfalso
        have hx : x ∈ spanCandidates o c s := by
          rw [hsc]
          exact List.mem_cons_self x rest
        rw [mem_spanCandidates] at hx
        obtain ⟨i, j, _, _, ho, _, _⟩ := hx
        exact firstIdxOf_none o s hf i ho
    rw [hempty]
    rfl
  · rcases hl : lastIdxOf c s with _ | j₀
    · have hempty : spanCandidates o c s = [] := by
        rcases hsc : spanCandidates o c s with _ | ⟨x, rest⟩
        · rfl
        · exfalso
          have hx : x ∈ spanCandidates o c s := by
            rw [hsc]
            exact List.mem_cons_self x rest
          rw [mem_spanCandidates] at hx
          obtain ⟨i, j, _, _, _, hc, _⟩ := hx
          exact lastIdxOf_none c s hl j hc
      rw [hempty]
      rfl
    · obtain ⟨hgo, hmino⟩ := firstIdxOf_some o s i₀ hf
      obtain ⟨hgc, hmaxc⟩ := lastIdxOf_some c s j₀ hl
      have hj₀len : j₀ < s.length := getElem?_some_lt _ _ _ hgc
      by_cases hij : i₀ < j₀
      · show List.foldl pickLonger none (spanCandidates o c s)
            = if i₀ < j₀ then some ((s.drop i₀).take (j₀ - i₀ + 1)) else none
        rw [if_pos hij]
        apply foldl_pickLonger_spec
        · intro x hx
          rw [mem_spanCandidates] at hx
          obtain ⟨i, j, hij', hjlen, ho, hc, rfl⟩ := hx
          have hi₀ : i₀ ≤ i := by
            by_contra hlt
            exact hmino i (by omega) ho
          have hj₀ : j ≤ j₀ := by
            by_contra hlt
            exact hmaxc j (by omega) hc
          rw [spanCandidate_length s i j hij' hjlen,
            spanCandidate_length s i₀ j₀ hij hj₀len]
          constructor
          · omega
          · intro hlen
            obtain ⟨rfl, rfl⟩ : i = i₀ ∧ j = j₀ := by omega
            rfl
        · intro b hb; cases hb
        · left
          rw [mem_spanCandidates]
          exact ⟨i₀, j₀, hij, hj₀len, hgo, hgc, rfl⟩
      · show List.foldl pickLonger none (spanCandidates o c s)
            = if i₀ < j₀ then some ((s.drop i₀).take (j₀ - i₀ + 1)) else none
        rw [if_neg hij]
        have hempty : spanCandidates o c s = [] := by
          rcases hsc : spanCandidates o c s with _ | ⟨x, rest⟩
          · rfl
          · exfalso
            have hx : x ∈ spanCandidates o c s := by
              rw [hsc]
              exact List.mem_cons_self x rest
            rw [mem_spanCandidates] at hx
            obtain ⟨i, j, hij', hjlen, ho, hc, _⟩ := hx
            have hi₀ : i₀ ≤ i := by
              by_contra hlt
              exact hmino i (by omega) ho
            have hj₀ : j ≤ j₀ := by
              by_contra hlt
              exact hmaxc j (by omega) hc
            omega
        rw [hempty]
        rfl

/-- Step 1 of `extractJSON`: the `json`-tagged block's trimmed contents if
valid. -/
def extractStep1 (response : Str) : Option Str :=
  match findJsonBlock response with
  | some raw => if jsonValid (trimSpace raw) then some (trimSpace raw) else none
  | none => none

/-- Step 2 of `extractJSON`: the (single) leftmost generic fenced block's
trimmed contents if valid. -/
def extractStep2 (response : Str) : Option Str :=
  match findCodeBlock response with
  | some r => if jsonValid (trimSpace r.1) then some (trimSpace r.1) else none
  | none => none

/-- Step 3 of `extractJSON`: the single `FindString` match of the object
regex, if valid. -/
def extractStep3 (response : Str) : Option Str :=
  match spanFirstLast '\x7b' '\x7d' response with
  | some m => if jsonValid m then some m else none
  | none => none

/-- Step 4 of `extractJSON`: the single `FindString` match of the array
regex, if valid. -/
def extractStep4 (response : Str) : Option Str :=
  match spanFirstLast '[' ']' response with
  | some m => if jsonValid m then some m else none
  | none => none

/-- `extractJSON`. -/
def extractJSON (response : Str) : Except GoErr Str :=
  match extractStep1 response with
  | some content => .ok content
  | none =>
    match extractStep2 response with
    | some content => .ok content
    | none =>
      match extractStep3 response with
      | some m => .ok m
      | none =>
        match extractStep4 response with
        | some m => .ok m
        | none => .error (.invalidJSON "no valid JSON found in response".data)

/-- Step 2 as amended: only the FIRST fenced block is considered, once. -/
def policyStep2 (response : Str) : Option Str :=
  match (allCodeBlocks (response.length + 1) response).head? with
  | some b => if jsonValid (trimSpace b) then some (trimSpace b) else none
  | none => none

/-- Steps 3–4 as amended: the longest substring beginning with `o` and
ending with `c`, tested once for validity. -/
def policySpan (o c : Char) (response : Str) : Option Str :=
  match longestSpan o c response with
  | some m => if jsonValid m then some m else none
  | none => none

/-- The amended ordered policy. -/
def extractJSONPolicy (response : Str) : Except GoErr Str :=
  match extractStep1 response with
  | some content => .ok content
  | none =>
    match policyStep2 response with
    | some content => .ok content
    | none =>
      match policySpan '\x7b' '\x7d' response with
      | some m => .ok m
      | none =>
        match policySpan '[' ']' response with
        | some m => .ok m
        | none => .error (.invalidJSON "no valid JSON found in response".data)

/-- Step 2 as the specification claims it: the first fenced block among all
of them whose trimmed contents parse as valid JSON. -/
def specStep2 (response : Str) : Option Str :=
  ((allCodeBlocks (response.length + 1) response).map trimSpace).find? jsonValid

/-- Steps 3–4 as the specification claims them: the longest substring
beginning with `o` and ending with `c` that parses as valid JSON. -/
def specSpan (o c : Char) (response : Str) : Option Str :=
  ((spanCandidates o c response).filter jsonValid).foldl pickLonger none

/-- The specification's ordered extraction policy, as claimed. -/
def extractJSONSpec (response : Str) : Except GoErr Str :=
  match extractStep1 response with
  | some content => .ok content
  | none =>
    match specStep2 response with
    | some content => .ok content
    | none =>
      match specSpan '\x7b' '\x7d' response with
      | some m => .ok m
      | none =>
        match specSpan '[' ']' response with
        | some m => .ok m
        | none => .error (.invalidJSON "no valid JSON found in response".data)

theorem allCodeBlocks_head (s : Str) :
    (allCodeBlocks (s.length + 1) s).head? = (findCodeBlock s).map Prod.fst := by
  rcases h : findCodeBlock s with _ | r
  · simp [allCodeBlocks, h]
  · simp [allCodeBlocks, h]

theorem policyStep2_eq (s : Str) : policyStep2 s = extractStep2 s := by
  unfold policyStep2 extractStep2
  rw [allCodeBlocks_head]
  rcases findCodeBlock s with _ | r
  · rfl
  · rfl

theorem policySpan_eq (o c : Char) (s : Str) :
    policySpan o c s =
      match spanFirstLast o c s with
      | some m => if jsonValid m then some m else none
      | none => none := by
  unfold policySpan
  rw [longestSpan_eq_spanFirstLast]

/-- C5 amended: JSON extraction follows the deterministic ordered policy:
(1) the first `json`-tagged fenced block's contents, if valid JSON;
(2) otherwise the first fenced block — and only that one — if its contents
are valid JSON; (3) otherwise the longest substring beginning with a brace
and ending with a brace (the span from the first opening to the last
closing brace), if it is valid JSON; (4) otherwise likewise for brackets;
(5) otherwise an *invalid-JSON* error.  Later fenced blocks and shorter
brace/bracket substrings are never consulted. -/
theorem extract_json_ordered_policy (s : Str) :
    extractJSON s = extractJSONPolicy s := by
  unfold extractJSON extractJSONPolicy
  rw [policyStep2_eq, policySpan_eq, policySpan_eq]
  rfl

/-- C5 counterexample: on `\x7ba\x7d\x7b"k":1\x7d` the source finds no JSON
(its single object-regex candidate, first brace to last brace, is invalid),
while the claimed policy finds the valid longest substring
`\x7b"k":1\x7d`. -/
theorem extract_json_spec_counterexample :
    extractJSON "\x7ba\x7d\x7b\"k\":1\x7d".data
      = .error (.invalidJSON "no valid JSON found in response".data) ∧
    extractJSONSpec "\x7ba\x7d\x7b\"k\":1\x7d".data
      = .ok "\x7b\"k\":1\x7d".data := by
  constructor
  · rfl
  · rfl

/-! ## Verdict agent over the LLM gateway and the pipeline's error
classification (`internal/agent/verdict.go`, `internal/pipeline/pipeline.go`) -/

/-- The agent-level `validateInput` of `verdict.go`: trim, then the
`ErrEmptyInput` and `ErrInputTooLong` checks. -/
def agentValidateInput (input : Str) : Option GoErr :=
  if trimSpace input = [] then some (.message "input cannot be empty".data)
  else if runeCount (trimSpace input) > 10000 then
    some (.message "input exceeds 10,000 characters".data)
  else none

/-- The agent-level `validateOutput` of `verdict.go`: only the ruling is
checked (`ErrEmptyRuling`). -/
def agentValidateOutput (output : VerdictOutput) : Option GoErr :=
  if trimSpace output.ruling = [] then
    some (.message "verdict ruling is empty".data)
  else none

/-- `CompleteJSON`: `Complete`, then `extractJSON`, then `json.Unmarshal`
into the caller's value.  The decoding of the extracted text is the
parameter `decode` (`none` standing for an unmarshal failure, wrapped in
`ErrInvalidJSON` by the source). -/
def completeJSON {α : Type} (c : Ctx) (env : Nat → ReqOutcome)
    (maxRetries t0 : Nat) (decode : Str → Option α) : Except GoErr α :=
  match (complete c env maxRetries t0).1 with
  | .error e => .error e
  | .ok response =>
    match extractJSON response with
    | .error e => .error e
    | .ok jsonContent =>
      match decode jsonContent with
      | none => .error (.invalidJSON "unmarshal failed".data)
      | some v => .ok v

/-- `VerdictAgent.Process` (= `ProcessWithContext` with empty search
context) as one pipeline stage over the modelled gateway: agent-level input
validation, then `CompleteJSON` on the built prompt — the request loop
starting at model time `t0` — whose failure is wrapped as
`failed to get verdict`, then agent-level output validation. -/
def verdictStageLLM (env : Nat → ReqOutcome) (maxRetries t0 : Nat)
    (decode : Str → Option VerdictOutput) (c : Ctx) (input : Str) :
    GoRet GoErr VerdictOutput :=
  match agentValidateInput input with
  | some e => ⟨none, some e⟩
  | none =>
    match completeJSON c env maxRetries t0 decode with
    | .error e => ⟨none, some (.wrapped "failed to get verdict".data e)⟩
    | .ok result =>
      match agentValidateOutput result with
      | some e => ⟨none, some e⟩
      | none => ⟨some result, none⟩

/-- C3 amended: `Execute`'s error classification is ordered per stage:
input validation first; then, for each of the two stages in order, a stage
error whose wrap chain carries `context.DeadlineExceeded` becomes *timeout*
before any stage wrap, and every other stage error — including one caused
by cancellation — becomes the stage's *verdict-failed* /
*execution-failed* wrap: `pipeline.go` declares no *cancelled* error kind.
In particular a run over the verdict agent whose context was cancelled
before the first request fails as *verdict-failed* wrapping the transport
error that carries `context.Canceled`, the request having been issued. -/
theorem pipeline_error_classification :
    (∀ vs es ctx input e, pipelineValidateInput input = none →
        (vs ctx input).err = some e → e.isDeadlineExceeded = true →
        pipelineExecute vs es ctx input = ⟨none, some .timeout⟩) ∧
    (∀ vs es ctx input e, pipelineValidateInput input = none →
        (vs ctx input).err = some e → e.isDeadlineExceeded = false →
        pipelineExecute vs es ctx input = ⟨none, some (.verdictFailed e)⟩) ∧
    (∀ vs es ctx input v e, pipelineValidateInput input = none →
        vs ctx input = ⟨some v, none⟩ →
        validateVerdictOutput (some v) = none →
        (es ctx (some v)).err = some e → e.isDeadlineExceeded = true →
        pipelineExecute vs es ctx input = ⟨none, some .timeout⟩) ∧
    (∀ vs es ctx input v e, pipelineValidateInput input = none →
        vs ctx input = ⟨some v, none⟩ →
        validateVerdictOutput (some v) = none →
        (es ctx (some v)).err = some e → e.isDeadlineExceeded = false →
        pipelineExecute vs es ctx input = ⟨none, some (.executionFailed e)⟩) ∧
    (∀ env maxRetries t0 decode es input,
        pipelineValidateInput input = none →
        agentValidateInput input = none → env 0 = ReqOutcome.doErr →
        pipelineExecute (verdictStageLLM env maxRetries t0 decode) es
            ⟨some 0, none⟩ input
          = ⟨none, some (.verdictFailed (.wrapped "failed to get verdict".data
              (.requestFailed .ctxCanceled)))⟩) := by
  refine ⟨?_, ?_, ?_, ?_, ?_⟩
  · intro vs es ctx input e hin hverr hd
    unfold pipelineExecute
    rw [hin, hverr]
    simp [hd]
  · intro vs es ctx input e hin hverr hd
    unfold pipelineExecute
    rw [hin, hverr]
    simp [hd]
  · intro vs es ctx input v e hin hvs hvv heerr hd
    unfold pipelineExecute
    rw [hin, hvs]
    simp [hvv, heerr, hd]
  · intro vs es ctx input v e hin hvs hvv heerr hd
    unfold pipelineExecute
    rw [hin, hvs]
    simp [hvv, heerr, hd]
  · intro env maxRetries t0 decode es input hin hain h0
    have hmr : makeRequest ⟨some 0, none⟩ t0 ReqOutcome.doErr
        = .error (.requestFailed .ctxCanceled) := by
      simp [makeRequest, Ctx.deadlinePassed, Ctx.isCancelled]
    have hstep : (complete ⟨some 0, none⟩ env maxRetries t0).1
        = .error (.requestFailed .ctxCanceled) := by
      unfold complete
      rw [completeAux, h0, hmr]
      rfl
    have hc : completeJSON ⟨some 0, none⟩ env maxRetries t0 decode
        = (.error (.requestFailed .ctxCanceled) : Except GoErr VerdictOutput) := by
      unfold completeJSON
      rw [hstep]
    have hv : verdictStageLLM env maxRetries t0 decode ⟨some 0, none⟩ input
        = ⟨none, some (.wrapped "failed to get verdict".data
            (.requestFailed .ctxCanceled))⟩ := by
      unfold verdictStageLLM
      rw [hain, hc]
    unfold pipelineExecute
    rw [hin, hv]
    rfl

/-- Witness for `pipeline_error_classification`: a context cancelled at
time 0 makes the run fail as *verdict-failed* around the cancelled
transport error. -/
theorem pipeline_error_classification_witness :
    pipelineExecute
        (verdictStageLLM (fun _ => ReqOutcome.doErr) 3 0 (fun _ => none))
        (fun _ vd => executionProcess vd (.error (.message "unused".data)))
        ⟨some 0, none⟩ "go or python?".data
      = ⟨none, some (.verdictFailed (.wrapped "failed to get verdict".data
          (.requestFailed .ctxCanceled)))⟩ :=
  pipeline_error_classification.2.2.2.2
    (fun _ => ReqOutcome.doErr) 3 0 (fun _ => none)
    (fun _ vd => executionProcess vd (.error (.message "unused".data)))
    "go or python?".data rfl rfl rfl

/-- C3 counterexample: for a run whose context is cancelled before any
request, `Execute` does NOT return a dedicated *cancelled* kind — none
exists among the pipeline errors — and an LLM request IS issued: the
gateway returns the cancelled transport error, which surfaces wrapped as
*verdict-failed*, not as *timeout*. -/
theorem cancelled_context_counterexample :
    pipelineExecute
        (verdictStageLLM (fun _ => ReqOutcome.doErr) 2 0 (fun _ => none))
        (fun _ vd => executionProcess vd (.error (.message "unused".data)))
        ⟨some 0, none⟩ "ship it?".data
      = ⟨none, some (.verdictFailed (.wrapped "failed to get verdict".data
          (.requestFailed .ctxCanceled)))⟩ ∧
    (complete ⟨some 0, none⟩ (fun _ => ReqOutcome.doErr) 2 0).1
      = .error (.requestFailed .ctxCanceled) := by
  exact ⟨rfl, rfl⟩

end VerdictAgent
